import Mathlib

/-!
Verification model of the `bibim` markdown-table bibliography engine
(`bibim/index.py`, `bibim/page.py`, `bibim/reference.py`).

Modelling conventions:
* A Python `str` is modelled as `List Char` (`Str`); `str s` injects a Lean
  string literal.  All string inputs in the claims are ASCII, so the
  ASCII-only behaviour of `Char.toLower` coincides with Python `str.lower`,
  and `\w` is the ASCII word-character class.
* A file is a list of the chunks returned by Python `readlines()`: each
  chunk carries its own trailing `'\n'`.  Every line the program itself
  writes is `'\n'`-terminated, so re-reading a written file yields the same
  list; file contents are compared as these lists.
* Python `dict[str, str]` is modelled as an insertion-ordered association
  list (`Dict`); assignment to an existing key updates the value in place,
  a new key is appended, exactly as CPython preserves insertion order.
* Python floats appear only in the Jaccard similarity; the quotients of
  small integer cardinalities compared against `0.5` are modelled exactly
  in `ℚ` (the float comparisons agree with the rational ones for these
  magnitudes).
-/

namespace Bibim

/-- Python `str`, as a list of unicode scalar values. -/
abbrev Str := List Char

/-- Inject a Lean string literal as a `Str`. -/
def str (s : String) : Str := s.data

/-- The whitespace characters stripped by Python `str.strip()` (ASCII part). -/
def isPySpace (c : Char) : Bool :=
  c = ' ' || c = '\t' || c = '\n' || c = '\r' || c = '\x0b' || c = '\x0c'

/-- Python `str.lstrip()`. -/
def lstrip (s : Str) : Str := s.dropWhile isPySpace

/-- Python `str.rstrip()`. -/
def rstrip (s : Str) : Str := (s.reverse.dropWhile isPySpace).reverse

/-- Python `str.strip()`. -/
def pyStrip (s : Str) : Str := rstrip (lstrip s)

/-- Python `str.strip('|')`. -/
def stripPipes (s : Str) : Str :=
  ((s.dropWhile (· = '|')).reverse.dropWhile (· = '|')).reverse

/-- Python `str.split(sep)` for a single-character separator. -/
def splitOnChar (sep : Char) : Str → List Str
  | [] => [[]]
  | c :: rest =>
    match splitOnChar sep rest with
    | [] => [[c]]
    | h :: t => if c = sep then [] :: h :: t else (c :: h) :: t

/-- `re.sub(r'\s+', '', s)`: delete every whitespace character. -/
def stripWS (s : Str) : Str := s.filter (fun c => !isPySpace c)

/-- Python `str.lower()` (ASCII scope). -/
def lower (s : Str) : Str := s.map Char.toLower

/-- ASCII `\w` word character: letter, digit or underscore. -/
def isWordChar (c : Char) : Bool := c.isAlphanum || c = '_'

/-- `re.findall(r'\w+', s)`: the maximal runs of word characters, in order. -/
def findWords : Str → List Str
  | [] => []
  | c :: rest =>
    if isWordChar c then
      match findWords rest with
      | [] => [[c]]
      | w :: ws =>
        match rest with
        | [] => [[c]]
        | d :: _ => if isWordChar d then (c :: w) :: ws else [c] :: w :: ws
    else findWords rest

/-- Python `str.ljust(w)`. -/
def ljust (s : Str) (w : Nat) : Str := s ++ List.replicate (w - s.length) ' '

/-- Python `'sep'.join(parts)`. -/
def join (sep : Str) : List Str → Str
  | [] => []
  | [p] => p
  | p :: q :: rest => p ++ sep ++ join sep (q :: rest)

/-- Python `s.replace('|', '\\|')`: escape literal pipes. -/
def escapePipes (s : Str) : Str :=
  (s.map (fun c => if c = '|' then ['\\', '|'] else [c])).flatten

/-- Python `s.startswith(p)`. -/
def startswith (s p : Str) : Bool := p.isPrefixOf s

/-- The lazy group of `prefix(.+?)suffix` anchored directly after the prefix:
the shortest non-empty run of non-newline characters followed by the literal
suffix (`.` does not match `'\n'` in Python `re`). -/
def lazyUpTo (sfx : Str) : Str → Option Str
  | [] => none
  | c :: rest =>
    if c = '\n' then none
    else if sfx.isPrefixOf rest then some [c]
    else
      match lazyUpTo sfx rest with
      | some g => some (c :: g)
      | none => none

/-- `extract_between` (`index.py`): `re.search(re.escape(prefix) + r'(.+?)' +
re.escape(suffix), text)`, returning the group of the leftmost match (the
match attempt slides one position to the right after each failure, and the
lazy group takes the shortest completion at a given start). -/
def extract_between : Str → Str → Str → Option Str
  | [], _, _ => none
  | c :: rest, pfx, sfx =>
    match (if pfx.isPrefixOf (c :: rest) then lazyUpTo sfx ((c :: rest).drop pfx.length) else none) with
    | some g => some g
    | none => extract_between rest pfx sfx

/-- The maximal run of characters other than `stop` (at least one), followed
by the literal `stop`; returns the run and the remainder after `stop`.  This
is the deterministic behaviour of `[^x]+x` in a regex. -/
def scanTo (stop : Char) : Str → Option (Str × Str)
  | [] => none
  | c :: rest =>
    if c = stop then none
    else
      match rest with
      | [] => none
      | d :: rest' =>
        if d = stop then some ([c], rest')
        else (scanTo stop rest).map (fun pr => (c :: pr.1, pr.2))

/-- A match of `\[([^\]]+)\]\([^\)]+\)` anchored at the start of `s`,
returning the bracketed group. -/
def linkAt (s : Str) : Option Str :=
  match s with
  | [] => none
  | c :: rest =>
    if c = '[' then
      match scanTo ']' rest with
      | some (g, r1) =>
        match r1 with
        | c2 :: r2 =>
          if c2 = '(' then
            match scanTo ')' r2 with
            | some _ => some g
            | none => none
          else none
        | [] => none
      | none => none
    else none

/-- The leftmost match of the markdown-link pattern anywhere in `s`. -/
def searchLink : Str → Option Str
  | [] => none
  | c :: rest =>
    match linkAt (c :: rest) with
    | some g => some g
    | none => searchLink rest

/-- `strip_markdown_link` (`index.py`): a cell of the form `[text](url)`
yields `text`; otherwise the cell is returned unchanged. -/
def strip_markdown_link (s : Str) : Str :=
  match searchLink s with
  | some g => g
  | none => s

/-! ### Table-name matcher (`find_best_matching_table`, `index.py`) -/

/-- `set(re.findall(r'\w+', s))`, as a duplicate-free list (first
occurrences kept; only its extent and cardinality matter). -/
def wordSet (s : Str) : List Str := (findWords s).eraseDups

/-- Python `needle in hay` on strings: contiguous-substring test. -/
def isSubstring (needle : Str) : Str → Bool
  | [] => needle.isEmpty
  | c :: rest => needle.isPrefixOf (c :: rest) || isSubstring needle rest

/-- `find_best_matching_table` (`index.py`): case-insensitive exact match,
then case-insensitive substring containment in either direction (first
candidate in iteration order), then maximal word-token Jaccard similarity
accepted iff the maximum is at least `0.5`.  The similarity
`len(intersection) / len(union)` is a Python float; it is modelled as the
exact fraction `(intersection count, union count)` and the float
comparisons `similarity > max_similarity` and `max_similarity >= 0.5`
become cross-multiplication comparisons, which agree with the float ones
at these magnitudes.  The running maximum starts at `0 = 0/1`. -/
def find_best_matching_table (table_titles : List Str) (query : Str) : Option Str :=
  let query_lower := lower query
  let query_words := wordSet query_lower
  match table_titles.find? (fun t => decide (lower t = query_lower)) with
  | some t => some t
  | none =>
    match table_titles.find? (fun t =>
        isSubstring query_lower (lower t) || isSubstring (lower t) query_lower) with
    | some t => some t
    | none =>
      let best := table_titles.foldl (fun acc title =>
        let title_words := wordSet (lower title)
        let u := (query_words ++ title_words).eraseDups
        if u.length = 0 then acc
        else
          let interCard := (query_words.filter (fun w => title_words.contains w)).length
          if acc.1.1 * u.length < interCard * acc.1.2 then ((interCard, u.length), some title)
          else acc) (((0 : Nat), (1 : Nat)), (none : Option Str))
      if best.1.2 ≤ 2 * best.1.1 then best.2 else none

/-! ### Insertion-ordered dictionaries (Python `dict`) -/

/-- A Python `dict` with string keys, as an insertion-ordered association
list whose keys are unique. -/
abbrev Dict (α : Type) := List (Str × α)

/-- `d[k]`, as an `Option`. -/
def dictFind {α} (m : Dict α) (k : Str) : Option α :=
  (m.find? (fun kv => decide (kv.1 = k))).map (·.2)

/-- `k in d`. -/
def dictHas {α} (m : Dict α) (k : Str) : Bool :=
  m.any (fun kv => decide (kv.1 = k))

/-- `d[k] = v`: update in place if the key exists (keeping its position),
otherwise append. -/
def dictSet {α} (m : Dict α) (k : Str) (v : α) : Dict α :=
  if dictHas m k then m.map (fun kv => if kv.1 = k then (k, v) else kv)
  else m ++ [(k, v)]

/-- `d[k]` where the caller guarantees presence (a missing key would raise
`KeyError` in Python; every theorem below supplies the key). -/
def dictGetStr (m : Dict Str) (k : Str) : Str := (dictFind m k).getD []

/-! ### The Index data model (`index.py`)

A file is the list of its `readlines()` chunks; every chunk the program
writes ends in `'\n'`.  Line indices (`start_line`, `end_line`) are the
naturals of the source; in every state reachable by the claims
`start_line ≥ 2` and the ranges lie inside the file, so Python's
negative-index slicing never arises and the `Int → Nat` conversions in the
offset repair are lossless. -/

/-- `IndexTemplate`: the `headers` dict is modelled by its lookup function
(the source only ever reads `headers[c]` for `c` in `columns`). -/
structure IndexTemplate where
  headers : Str → Str
  columns : List Str
  sep0 : Str
  sep1 : Str

/-- A `Table`: parsed data rows (each row's `entry` dict) plus the recorded
data-row range `[start_line, end_line)`.  The `Row.parent` back-reference
of the source carries no information and is dropped. -/
structure Table where
  rows : List (Dict Str)
  start_line : Nat
  end_line : Nat
deriving DecidableEq

/-- An `Index` together with the current contents of its file: `file` is
what `open(self.path).readlines()` returns, `tables` the in-memory dict. -/
structure IndexState where
  file : List Str
  tables : Dict Table
deriving DecidableEq

/-- The display header texts in column order. -/
def headersList (tpl : IndexTemplate) : List Str := tpl.columns.map tpl.headers

/-- `_table_signature`: the whitespace-stripped `'|' + '|'.join(headers) + '|'`. -/
def table_signature (tpl : IndexTemplate) : Str :=
  stripWS (['|'] ++ join ['|'] (headersList tpl) ++ ['|'])

/-- The linkification `_write_table` applies to every row before rendering:
if the entry has a `reference` key its value `v` is overwritten (in the
entry itself) with `[v](v)`. -/
def linkify (e : Dict Str) : Dict Str :=
  if dictHas e (str "reference") then
    dictSet e (str "reference")
      (['['] ++ dictGetStr e (str "reference") ++ [']', '('] ++ dictGetStr e (str "reference") ++ [')'])
  else e

/-- The display width of column `c`: the header length maximised with every
row's value length (`_write_table`). -/
def colWidth (tpl : IndexTemplate) (rows : List (Dict Str)) (c : Str) : Nat :=
  rows.foldl (fun w r => max w (dictGetStr r c).length) (tpl.headers c).length

/-- The rendered header row of `_write_table`. -/
def headerLine (tpl : IndexTemplate) (width : Str → Nat) : Str :=
  str "| " ++ join (str " | ") (tpl.columns.map (fun c => ljust (tpl.headers c) (width c))) ++ str " |" ++ ['\n']

/-- The rendered dash separator row of `_write_table`. -/
def dashLine (tpl : IndexTemplate) (width : Str → Nat) : Str :=
  ['|'] ++ join ['|'] (tpl.columns.map (fun c => List.replicate (width c + 2) '-')) ++ ['|', '\n']

/-- A rendered data row of `_write_table`: each value pipe-escaped, then
left-justified to the column width (the width was computed from the
unescaped values). -/
def rowLine (tpl : IndexTemplate) (width : Str → Nat) (e : Dict Str) : Str :=
  str "| " ++ join (str " | ") (tpl.columns.map (fun c => ljust (escapePipes (dictGetStr e c)) (width c))) ++ str " |" ++ ['\n']

/-- All lines `_write_table` renders for a table holding `rows`. -/
def renderTable (tpl : IndexTemplate) (rows : List (Dict Str)) : List Str :=
  let width := colWidth tpl rows
  headerLine tpl width :: dashLine tpl width :: rows.map (rowLine tpl width)

/-- `self.tables[name]` for a name the caller has resolved (always present). -/
def getTable (tables : Dict Table) (name : Str) : Table :=
  (dictFind tables name).getD ⟨[], 0, 0⟩

/-- `Index._write_table`: linkify and re-render the table's rows, splice the
rendered lines over `[start_line - 2, end_line)` of the current file, set the
table's new `end_line`, and shift the recorded range of every table whose
`start_line` exceeds this table's by the row-count delta. -/
def write_table (tpl : IndexTemplate) (st : IndexState) (name : Str) : IndexState :=
  let t := getTable st.tables name
  let rows' := t.rows.map linkify
  let newLines := renderTable tpl rows'
  let file' := st.file.take (t.start_line - 2) ++ newLines ++ st.file.drop t.end_line
  let endNew := t.start_line + rows'.length
  let delta : Int := (endNew : Int) - (t.end_line : Int)
  let tables' := st.tables.map (fun kv =>
    if kv.1 = name then (kv.1, Table.mk rows' t.start_line endNew)
    else if t.start_line < kv.2.start_line then
      (kv.1, Table.mk kv.2.rows ((kv.2.start_line : Int) + delta).toNat ((kv.2.end_line : Int) + delta).toNat)
    else kv)
  IndexState.mk file' tables'

/-- `list(self.tables.keys())[0]`, when it exists. -/
def firstKey (tables : Dict Table) : Option Str := (tables.map Prod.fst).head?

/-- The table-name resolution shared by `update_row` and `insert_row`.
Outer `none` models the uncaught `IndexError` of `list(keys)[0]` on an
empty dict (a falsy `table_name` — absent or the empty string — defaults to
the first table); `some none` is an unresolved name. -/
def resolveTableName (st : IndexState) (table_name : Option Str) : Option (Option Str) :=
  match table_name with
  | none =>
    match firstKey st.tables with
    | none => none
    | some k => some (some k)
  | some q =>
    if q = [] then
      match firstKey st.tables with
      | none => none
      | some k => some (some k)
    else some (find_best_matching_table (st.tables.map Prod.fst) q)

/-- `Index.update_row`.  `none` models an uncaught exception; otherwise the
boolean result is paired with the post-state (file and tables). -/
def update_row (tpl : IndexTemplate) (st : IndexState) (idx : Int) (values : Dict Str)
    (table_name : Option Str) : Option (Bool × IndexState) :=
  match resolveTableName st table_name with
  | none => none
  | some none => some (false, st)
  | some (some name) =>
    let t := getTable st.tables name
    if idx < 0 ∨ (t.rows.length : Int) ≤ idx then some (false, st)
    else
      let st' := IndexState.mk st.file (st.tables.map (fun kv =>
        if kv.1 = name then (kv.1, Table.mk (t.rows.set idx.toNat values) t.start_line t.end_line) else kv))
      some (true, write_table tpl st' name)

/-- `Index.insert_row`. -/
def insert_row (tpl : IndexTemplate) (st : IndexState) (values : Dict Str)
    (table_name : Option Str) : Option (Bool × IndexState) :=
  match resolveTableName st table_name with
  | none => none
  | some none => some (false, st)
  | some (some name) =>
    let t := getTable st.tables name
    let st' := IndexState.mk st.file (st.tables.map (fun kv =>
      if kv.1 = name then (kv.1, Table.mk (t.rows ++ [values]) t.start_line t.end_line) else kv))
    some (true, write_table tpl st' name)

/-- `Index.format`: `_write_table` for every table, in dict order. -/
def format (tpl : IndexTemplate) (st : IndexState) : IndexState :=
  (st.tables.map Prod.fst).foldl (fun s n => write_table tpl s n) st

/-- The three lines `Index.create` writes. -/
def createFile (tpl : IndexTemplate) : List Str :=
  [tpl.sep0 ++ str "Index" ++ tpl.sep1 ++ ['\n'],
   str "| " ++ join (str " | ") (headersList tpl) ++ str " |" ++ ['\n'],
   ['|'] ++ join ['|'] (tpl.columns.map (fun c => List.replicate ((tpl.headers c).length + 2) '-')) ++ ['|', '\n']]

/-- One parsed data line of `Index.load`: strip, strip boundary pipes, split
on `'|'`, then trim and link-unwrap each cell, and zip with the column keys
(`dict(zip(template.columns, values))`; the claims' templates have distinct
columns, so the zip is the dict). -/
def parseRowLine (tpl : IndexTemplate) (line : Str) : Dict Str :=
  let values := (splitOnChar '|' (stripPipes (pyStrip line))).map (fun v => strip_markdown_link (pyStrip v))
  tpl.columns.zip values

/-- `lines[i].strip().startswith('|')`: the membership test of the inner
row-scanning loop of `Index.load`. -/
def isTableRow (line : Str) : Bool := startswith (pyStrip line) ['|']

/-- The inner loop of `Index.load`: starting at `i`, advance past the
contiguous block of lines whose stripped form starts with `'|'`; the result
is the exclusive end.  `fuel ≥ lines.length - i` makes the recursion
structural; the wrapper passes exactly that. -/
def scanEnd (lines : List Str) : Nat → Nat → Nat
  | 0, i => i
  | fuel + 1, i =>
    if i < lines.length then
      if isTableRow (lines.getD i []) then scanEnd lines fuel (i + 1) else i
    else i

/-- The outer scanning loop of `Index.load`.  `title` is the running
"current title".  A signature line seen before any title line would be
registered under the Python key `None`; that degenerate document shape is
outside every claim, and is collapsed to the key `""` here (a genuine title
is never empty, since `extract_between` groups are non-empty and falsy
titles are ignored). -/
def loadLoop (tpl : IndexTemplate) (lines : List Str) :
    Nat → Nat → Option Str → Dict Table → Dict Table
  | 0, _, _, acc => acc
  | fuel + 1, i, title, acc =>
    if i < lines.length then
      let line := lines.getD i []
      let title' :=
        match extract_between line tpl.sep0 tpl.sep1 with
        | some t => if t = [] then title else some t
        | none => title
      let i1 := i + 1
      if stripWS line ≠ table_signature tpl then loadLoop tpl lines fuel i1 title' acc
      else
        let tstart := i1 + 1
        let tend := scanEnd lines (lines.length - i1) i1
        if tend ≤ tstart then
          loadLoop tpl lines fuel tend title' (dictSet acc (title'.getD []) (Table.mk [] tstart tstart))
        else
          let rows := ((lines.take tend).drop tstart).map (parseRowLine tpl)
          loadLoop tpl lines fuel tend title' (dictSet acc (title'.getD []) (Table.mk rows tstart tend))
    else acc

/-- The table dict `Index.load` builds from a file's lines. -/
def loadTables (tpl : IndexTemplate) (lines : List Str) : Dict Table :=
  loadLoop tpl lines lines.length 0 none []

/-- `Index.load`: scan the file into an `IndexState`. -/
def load (tpl : IndexTemplate) (lines : List Str) : IndexState :=
  IndexState.mk lines (loadTables tpl lines)

/-- `Index.create`: write the three-line skeleton, then load it. -/
def create (tpl : IndexTemplate) : IndexState :=
  load tpl (createFile tpl)

/-! ### Pages (`page.py`) and reference pages (`reference.py`) -/

/-- Python truthiness of `str | None`: `None` and `""` are falsy. -/
def truthyStr : Option Str → Bool
  | none => false
  | some s => !s.isEmpty

/-- A `PageTemplate`: per field key a `(prefix, suffix)` marker pair, in
dict insertion order, plus the creation-time layout (unused by load/save). -/
structure PageTemplate where
  entries : List (Str × Str × Str)
  layout : Str

/-- A field entry `(key, prefix, suffix)` matches a line iff
`extract_between` yields a truthy value there (`if value:` in the source). -/
def matchesField (line : Str) (e : Str × Str × Str) : Bool :=
  truthyStr (extract_between line e.2.1 e.2.2)

/-- One line of `Page.load` (`page.py`): the first field key not yet in
`data` whose marker extracts a truthy value from the line is assigned that
value (then the per-line scan breaks). -/
def pageLoadStep (tpl : PageTemplate) (data : Dict Str) (line : Str) : Dict Str :=
  match tpl.entries.find? (fun e =>
      !dictHas data e.1 && matchesField line e) with
  | some e => dictSet data e.1 ((extract_between line e.2.1 e.2.2).getD [])
  | none => data

/-- `Page.load` (`page.py`): scan every line, starting from empty data. -/
def pageLoad (tpl : PageTemplate) (lines : List Str) : Dict Str :=
  lines.foldl (pageLoadStep tpl) []

/-- The loop of `Page.save`, threading the `saved` key set: a line matched
by the first unconsumed field is replaced by `prefix + data[key] + suffix`
(as in the source, no newline is re-appended), all other lines pass through
unchanged.  Returns the output lines and the final consumed set. -/
def pageSaveAux (tpl : PageTemplate) (data : Dict Str) :
    List Str → List Str → List Str × List Str
  | saved, [] => ([], saved)
  | saved, line :: rest =>
    match tpl.entries.find? (fun e =>
        !saved.contains e.1 && matchesField line e) with
    | some e =>
      let pr := pageSaveAux tpl data (e.1 :: saved) rest
      ((e.2.1 ++ dictGetStr data e.1 ++ e.2.2) :: pr.1, pr.2)
    | none =>
      let pr := pageSaveAux tpl data saved rest
      (line :: pr.1, pr.2)

/-- `Page.save` (`page.py`): rewrite the file's lines. -/
def pageSave (tpl : PageTemplate) (data : Dict Str) (lines : List Str) : List Str :=
  (pageSaveAux tpl data [] lines).1

/-- The `Reference` dataclass fields relevant to loading (`reference.py`);
absent entries default to `None`. -/
structure Reference where
  author : Option Str := none
  title : Option Str := none
  year : Option Str := none
  bibtex : Option Str := none
  bibtex_condensed : Option Str := none
  venue : Option Str := none
  url : Option Str := none
  num_citations : Option Str := none
deriving DecidableEq

/-- The line loop of `ReferencePage.load`: a line opening a ```` ```bibtex ````
fence (outside a fence) starts collecting; a line starting with three
backticks (inside a fence) closes the block, appending the stripped
concatenation of the collected lines; lines inside a fence are collected
raw and are never scanned for field markers; any other line is scanned for
markers exactly as in `Page.load`. -/
def refPageScan (tpl : PageTemplate) :
    List Str → Bool → List Str → List Str → Dict Str → List Str × Dict Str
  | [], _, _, blocks, entries => (blocks, entries)
  | line :: rest, parsing, cur, blocks, entries =>
    if startswith line (str "```bibtex") && !parsing then
      refPageScan tpl rest true [] blocks entries
    else if startswith line (str "```") && parsing then
      refPageScan tpl rest false cur (blocks ++ [pyStrip cur.flatten]) entries
    else if parsing then
      refPageScan tpl rest parsing (cur ++ [line]) blocks entries
    else
      match tpl.entries.find? (fun e =>
          !dictHas entries e.1 && matchesField line e) with
      | some e =>
        refPageScan tpl rest parsing cur blocks
          (dictSet entries e.1 ((extract_between line e.2.1 e.2.2).getD []))
      | none => refPageScan tpl rest parsing cur blocks entries

/-- The block-to-field assignment at the end of `ReferencePage.load`: with
exactly one closed block it becomes `bibtex`; with more than one, only
`bibtex_condensed` is assigned (from the second block) — the source's
`elif`. -/
def assignBlocks (blocks : List Str) (entries : Dict Str) : Dict Str :=
  if blocks.length = 1 then dictSet entries (str "bibtex") (blocks.getD 0 [])
  else if 1 < blocks.length then dictSet entries (str "bibtex_condensed") (blocks.getD 1 [])
  else entries

/-- `ReferencePage.load` (`reference.py`): scan the lines, assign fenced
blocks, and build the `Reference` (`Reference(**entries)`; the claims'
templates only use keys that are `Reference` fields). -/
def refPageLoad (tpl : PageTemplate) (lines : List Str) : Reference :=
  let scanned := refPageScan tpl lines false [] [] []
  let entries := assignBlocks scanned.1 scanned.2
  { author := dictFind entries (str "author")
    title := dictFind entries (str "title")
    year := dictFind entries (str "year")
    bibtex := dictFind entries (str "bibtex")
    bibtex_condensed := dictFind entries (str "bibtex_condensed")
    venue := dictFind entries (str "venue")
    url := dictFind entries (str "url")
    num_citations := dictFind entries (str "num_citations") }

/-! ### Concrete fixtures used by several theorems -/

/-- A one-column index template (`title` column, `##`-style section marker). -/
def tpl1 : IndexTemplate :=
  { headers := fun c => if c = str "title" then str "Title" else str "X"
    columns := [str "title"]
    sep0 := str "## "
    sep1 := str " ##" }

/-- A one-column index template whose single column is `reference`. -/
def tplRef : IndexTemplate :=
  { headers := fun c => if c = str "reference" then str "Reference" else str "X"
    columns := [str "reference"]
    sep0 := str "## "
    sep1 := str " ##" }

/-- The post-state of a mutation that returned a result (all fixtures below
only use it after a successful call). -/
def stepState (r : Option (Bool × IndexState)) : IndexState :=
  (r.map Prod.snd).getD (IndexState.mk [] [])

/-! ## Theorems for the claims -/

/-- C4: `find_best_matching_table` tries case-insensitive exact equality,
then case-insensitive substring containment in either direction (first
candidate in iteration order), then maximal word-token Jaccard similarity
accepted iff the maximum is at least `0.5`.  Concretely, for candidates
`["Related Work", "Baselines", "Ablation Studies"]`: query `"baseline"`
resolves to `"Baselines"` (substring), `"ablation study"` returns none
(Jaccard `1/3 < 0.5`), `"qwerty"` returns none; further cases pin the stage
order (an exact match beats an earlier substring candidate; the first
substring candidate in iteration order wins; containment works in both
directions; a Jaccard similarity of `1 ≥ 0.5` is accepted). -/
theorem claim4_matcher_correctness :
    find_best_matching_table [str "Related Work", str "Baselines", str "Ablation Studies"]
      (str "baseline") = some (str "Baselines") ∧
    find_best_matching_table [str "Related Work", str "Baselines", str "Ablation Studies"]
      (str "ablation study") = none ∧
    find_best_matching_table [str "Related Work", str "Baselines", str "Ablation Studies"]
      (str "qwerty") = none ∧
    find_best_matching_table [str "Baseline Results", str "baseline"]
      (str "Baseline") = some (str "baseline") ∧
    find_best_matching_table [str "Related Work", str "Work Items"]
      (str "work") = some (str "Related Work") ∧
    find_best_matching_table [str "Ablation Studies"]
      (str "all ablation studies listed") = some (str "Ablation Studies") ∧
    find_best_matching_table [str "Related Work"]
      (str "work related") = some (str "Related Work") := by
  decide

/-- A reference-page template: a `title` field and an `author` field whose
marker (text between `@` and a newline) would match the body line of the
bibtex fences below if fence contents were scanned for fields. -/
def refPageTpl : PageTemplate :=
  { entries := [(str "title", str "# ", str "\n"), (str "author", str "@", str "\n")]
    layout := [] }

/-- A reference page with two closed ```` ```bibtex ```` fences, holding
`@a` and `@b`. -/
def twoFenceFile : List Str :=
  [str "# T\n", str "```bibtex\n", str "@a\n", str "```\n", str "\n",
   str "```bibtex\n", str "@b\n", str "```\n"]

/-- C8: on a reference page with two closed fenced bibtex blocks, the
blocks are collected in appearance order and lines inside a fence are never
scanned as marker fields (`author` stays unset although `@a`/`@b` match its
marker), and with a single closed fence the first block's text does land in
`bibtex`; but with two blocks the source's `elif` assigns only
`bibtex_condensed` (from the second block) and leaves `bibtex` as `None`,
instead of assigning the first block to `bibtex` as the claim states. -/
theorem claim8_two_fences_drop_primary :
    (refPageLoad refPageTpl twoFenceFile).bibtex = none ∧
    (refPageLoad refPageTpl twoFenceFile).bibtex_condensed = some (str "@b") ∧
    (refPageLoad refPageTpl twoFenceFile).title = some (str "T") ∧
    (refPageLoad refPageTpl twoFenceFile).author = none ∧
    (refPageLoad refPageTpl (twoFenceFile.take 4)).bibtex = some (str "@a") := by
  decide

/-- C5: writing the value `a|b` escapes the pipe (`a\|b` in the file), but
`Index.load` splits data lines on every `'|'` with no unescaping, so the
re-scanned cell is `a\` — the original value containing `|` is not
recovered. -/
theorem claim5_pipe_escape_no_roundtrip :
    (insert_row tpl1 (create tpl1) [(str "title", str "a|b")] none).map
        (fun r => (r.1, r.2.file, loadTables tpl1 r.2.file)) =
      some (true,
        [str "## Index ##\n", str "| Title |\n", str "|-------|\n", str "| a\\|b  |\n"],
        [(str "Index", Table.mk [[(str "title", str "a\\")]] 3 4)]) ∧
    str "a\\" ≠ str "a|b" := by
  decide

/-- The index state after inserting one row (`reference = a`) into a fresh
`tplRef` index. -/
def refSt1 : IndexState :=
  stepState (insert_row tplRef (create tplRef) [(str "reference", str "a")] none)

/-- `refSt1`'s file, freshly loaded: a genuinely loaded Index. -/
def loadedRef : IndexState := load tplRef refSt1.file

/-- C2: `format` is not idempotent and does change cell values.  On a
loaded one-table index whose `reference` cell is `a` (stored in the file as
`[a](a)`), a single `format` call rewrites the in-memory cell to `[a](a)`
(the file happens to keep the same bytes), and a second `format` call wraps
it again, producing the cell `[[a](a)]([a](a))` and a byte-different file. -/
theorem claim2_format_not_idempotent :
    loadedRef.tables = [(str "Index", Table.mk [[(str "reference", str "a")]] 3 4)] ∧
    (format tplRef loadedRef).tables
      = [(str "Index", Table.mk [[(str "reference", str "[a](a)")]] 3 4)] ∧
    (format tplRef (format tplRef loadedRef)).file.getD 3 []
      = str "| [[a](a)]([a](a)) |\n" ∧
    ((format tplRef (format tplRef loadedRef)).file).flatten
      ≠ ((format tplRef loadedRef).file).flatten := by
  decide

/-- C3 counterexample: on an Index with zero tables, `insert_row` and
`update_row` with the table name omitted (or empty, which is equally falsy)
do not return `False`: `list(self.tables.keys())[0]` raises an uncaught
`IndexError` (modelled as `none`). -/
theorem claim3_zero_tables_default_raises :
    insert_row tpl1 (IndexState.mk [] []) [(str "title", str "v")] none = none ∧
    update_row tpl1 (IndexState.mk [] []) 0 [(str "title", str "v")] none = none ∧
    insert_row tpl1 (IndexState.mk [] []) [(str "title", str "v")] (some []) = none := by
  decide

/-- `find_best_matching_table` over an empty candidate list never resolves. -/
theorem find_best_matching_table_nil (q : Str) : find_best_matching_table [] q = none := rfl

/-- C3 (amended): `insert_row` and `update_row` return `False` and leave
the file and the in-memory tables unchanged when a supplied table name does
not resolve, when a table name is supplied and the Index has zero tables,
or when `update_row`'s `idx` is outside the resolved table's row bounds;
but when the table name is omitted (or empty) and the Index has zero
tables, `list(self.tables.keys())[0]` raises an uncaught `IndexError`
instead of returning `False`. -/
theorem claim3_failure_cases_return_false (tpl : IndexTemplate) (st : IndexState)
    (q : Str) (idx : Int) (values : Dict Str) :
    (q ≠ [] → find_best_matching_table (st.tables.map Prod.fst) q = none →
      insert_row tpl st values (some q) = some (false, st) ∧
      update_row tpl st idx values (some q) = some (false, st)) ∧
    (st.tables = [] → q ≠ [] →
      insert_row tpl st values (some q) = some (false, st) ∧
      update_row tpl st idx values (some q) = some (false, st)) ∧
    (st.tables = [] →
      insert_row tpl st values none = none ∧ update_row tpl st idx values none = none) ∧
    (∀ tn name, resolveTableName st tn = some (some name) →
      (idx < 0 ∨ ((getTable st.tables name).rows.length : Int) ≤ idx) →
      update_row tpl st idx values tn = some (false, st)) := by
  refine ⟨fun hq hm => ?_, fun hst hq => ?_, fun hst => ?_, fun tn name hres hidx => ?_⟩
  · simp [insert_row, update_row, resolveTableName, hq, hm]
  · simp [insert_row, update_row, resolveTableName, hq, hst, find_best_matching_table_nil]
  · simp [insert_row, update_row, resolveTableName, firstKey, hst]
  · simp [update_row, hres, hidx]

/-- Witness for C3 (amended): the failure branches at concrete inputs. -/
theorem claim3_failure_cases_return_false_witness :
    insert_row tpl1 (create tpl1) [(str "title", str "v")] (some (str "zzz"))
        = some (false, create tpl1) ∧
    update_row tpl1 (create tpl1) 0 [(str "title", str "v")] none
        = some (false, create tpl1) ∧
    insert_row tpl1 (IndexState.mk [] []) [] (some (str "t")) = some (false, IndexState.mk [] []) ∧
    update_row tpl1 (IndexState.mk [] []) 0 [] none = none := by
  refine ⟨?_, ?_, ?_, ?_⟩
  · exact ((claim3_failure_cases_return_false tpl1 (create tpl1) (str "zzz") 0
      [(str "title", str "v")]).1 (by decide) (by decide)).1
  · exact (claim3_failure_cases_return_false tpl1 (create tpl1) [] 0
      [(str "title", str "v")]).2.2.2 none (str "Index") (by decide) (by decide)
  · exact ((claim3_failure_cases_return_false tpl1 (IndexState.mk [] []) (str "t") 0 []).2.1
      rfl (by decide)).1
  · exact ((claim3_failure_cases_return_false tpl1 (IndexState.mk [] []) (str "x") 0 []).2.2.1
      rfl).2

/-! ### Characterisation of `extract_between` matches -/

/-- A successful lazy group decomposes its input: the group is non-empty,
newline-free, and followed by the literal suffix. -/
theorem lazyUpTo_some (sfx : Str) :
    ∀ u g, lazyUpTo sfx u = some g → ∃ v, u = g ++ sfx ++ v ∧ 1 ≤ g.length ∧ '\n' ∉ g := by
  intro u
  induction u with
  | nil => intro g h; simp [lazyUpTo] at h
  | cons c rest ih =>
    intro g h
    simp only [lazyUpTo] at h
    by_cases hc : c = '\n'
    · simp [hc] at h
    · rw [if_neg hc] at h
      by_cases hp : sfx.isPrefixOf rest
      · rw [if_pos hp] at h
        obtain rfl : [c] = g := Option.some.inj h
        obtain ⟨v, hv⟩ := List.isPrefixOf_iff_prefix.mp hp
        refine ⟨v, by simp [← hv], by simp, ?_⟩
        simp only [List.mem_singleton]
        exact fun hx => hc hx.symm
      · rw [if_neg hp] at h
        cases hrec : lazyUpTo sfx rest with
        | none => rw [hrec] at h; exact absurd h (by simp)
        | some g' =>
          rw [hrec] at h
          obtain rfl : c :: g' = g := Option.some.inj h
          obtain ⟨v, hv, hlen, hnl⟩ := ih g' hrec
          refine ⟨v, by simp [hv], by simp, ?_⟩
          simp only [List.mem_cons, not_or]
          exact ⟨fun hx => hc hx.symm, hnl⟩

/-- A successful `extract_between` decomposes its input as
`before ++ prefix ++ group ++ suffix ++ after`, with a non-empty
newline-free group. -/
theorem extract_between_some (pfx sfx : Str) :
    ∀ t g, extract_between t pfx sfx = some g →
      ∃ a b, t = a ++ pfx ++ g ++ sfx ++ b ∧ 1 ≤ g.length ∧ '\n' ∉ g := by
  intro t
  induction t with
  | nil => intro g h; simp [extract_between] at h
  | cons c rest ih =>
    intro g h
    simp only [extract_between] at h
    by_cases hp : pfx.isPrefixOf (c :: rest)
    · rw [if_pos hp] at h
      cases hlz : lazyUpTo sfx ((c :: rest).drop pfx.length) with
      | none =>
        rw [hlz] at h
        obtain ⟨a, b, hab, hlen, hnl⟩ := ih g h
        exact ⟨c :: a, b, by simp [hab], hlen, hnl⟩
      | some g0 =>
        rw [hlz] at h
        obtain ⟨u, hu⟩ := List.isPrefixOf_iff_prefix.mp hp
        have hdrop : (c :: rest).drop pfx.length = u := by
          rw [← hu]; exact List.drop_left pfx u
        rw [hdrop] at hlz
        obtain ⟨v, hv, hlen, hnl⟩ := lazyUpTo_some sfx u g0 hlz
        have hg : g0 = g := by simpa using h
        subst hg
        exact ⟨[], v, by rw [← hu, hv]; simp, hlen, hnl⟩
    · rw [if_neg hp] at h
      obtain ⟨a, b, hab, hlen, hnl⟩ := ih g h
      exact ⟨c :: a, b, by simp [hab], hlen, hnl⟩

/-- A list with an element appended equals itself with one prepended only
when the two elements agree (and the list is constant). -/
theorem append_singleton_eq_cons {α : Type} :
    ∀ (l : List α) (x y : α), l ++ [x] = y :: l → x = y := by
  intro l
  induction l with
  | nil => intro x y h; simpa using h
  | cons d s ih =>
    intro x y h
    rw [List.cons_append] at h
    injection h with hdy hrest
    exact hdy ▸ (ih x d hrest)

/-! ### Dictionary lemmas -/

/-- Unfolding `dictFind` over a cons cell. -/
theorem dictFind_cons {α : Type} (kv : Str × α) (m : Dict α) (k : Str) :
    dictFind (kv :: m) k = if kv.1 = k then some kv.2 else dictFind m k := by
  by_cases h : kv.1 = k <;> simp [dictFind, List.find?, h]

/-- In-place update of one key leaves lookups of a different key unchanged. -/
theorem dictFind_map_set {α : Type} (m : Dict α) (k' k : Str) (v : α) (h : ¬k' = k) :
    dictFind (m.map (fun kv => if kv.1 = k' then (k', v) else kv)) k = dictFind m k := by
  induction m with
  | nil => rfl
  | cons kv m ih =>
    by_cases hk : kv.1 = k'
    · have hkk : ¬kv.1 = k := by rw [hk]; exact h
      simp [dictFind_cons, hk, h, hkk, ih]
    · by_cases hkk : kv.1 = k
      · have hk2 : ¬k = k' := fun hc => h hc.symm
        simp [dictFind_cons, hk, hkk, hk2]
      · simp [dictFind_cons, hk, hkk, ih]

/-- Appending a binding for one key leaves lookups of a different key
unchanged. -/
theorem dictFind_append_single {α : Type} (m : Dict α) (k' k : Str) (v : α) (h : ¬k' = k) :
    dictFind (m ++ [(k', v)]) k = dictFind m k := by
  induction m with
  | nil => simp [dictFind_cons, h, dictFind]
  | cons kv m ih =>
    by_cases hkk : kv.1 = k
    · simp [dictFind_cons, hkk]
    · simp [dictFind_cons, hkk, ih]

/-- Setting one key leaves lookups of a different key unchanged. -/
theorem dictFind_dictSet_ne {α : Type} (m : Dict α) (k' k : Str) (v : α) (h : k' ≠ k) :
    dictFind (dictSet m k' v) k = dictFind m k := by
  unfold dictSet
  by_cases hhas : dictHas m k'
  · rw [if_pos hhas]; exact dictFind_map_set m k' k v h
  · rw [if_neg hhas]; exact dictFind_append_single m k' k v h

/-- `Page.load` never records a key whose marker matches no line. -/
theorem pageLoad_foldl_not_found (tpl : PageTemplate) (k : Str) :
    ∀ (lines : List Str) (data : Dict Str),
      (∀ e ∈ tpl.entries, e.1 = k →
        ∀ line ∈ lines, truthyStr (extract_between line e.2.1 e.2.2) = false) →
      dictFind data k = none →
      dictFind (lines.foldl (pageLoadStep tpl) data) k = none := by
  intro lines
  induction lines with
  | nil => intro data _ h0; simpa using h0
  | cons line rest ih =>
    intro data h h0
    rw [List.foldl_cons]
    refine ih (pageLoadStep tpl data line)
      (fun e he hek l hl => h e he hek l (List.mem_cons_of_mem _ hl)) ?_
    unfold pageLoadStep
    cases hfind : tpl.entries.find? (fun e =>
        !dictHas data e.1 && matchesField line e) with
    | none => exact h0
    | some e =>
      have hmem := List.mem_of_find?_eq_some hfind
      have hpred := List.find?_some hfind
      rw [Bool.and_eq_true] at hpred
      have hne : e.1 ≠ k := by
        intro hek
        have hf := h e hmem hek line (List.mem_cons_self _ _)
        have hm := hpred.2
        simp only [matchesField, hf] at hm
        exact Bool.false_ne_true hm
      exact (dictFind_dictSet_ne data e.1 k _ hne).trans h0

/-- C10: a field whose stored value is the empty string behaves exactly
like an absent field: `extract_between` needs a non-empty group, so it
returns `None` on a line that is exactly `prefix ++ suffix` (with or
without the trailing newline); consequently `Page.load` never records a key
none of whose marker lines match, and `Page.save` passes a line matched by
no field through unchanged with the consumed set untouched. -/
theorem claim10_empty_value_is_absent :
    (∀ p s : Str, extract_between (p ++ s) p s = none) ∧
    (∀ p s : Str, extract_between (p ++ s ++ ['\n']) p s = none) ∧
    (∀ (tpl : PageTemplate) (lines : List Str) (k : Str),
      (∀ e ∈ tpl.entries, e.1 = k →
        ∀ line ∈ lines, truthyStr (extract_between line e.2.1 e.2.2) = false) →
      dictFind (pageLoad tpl lines) k = none) ∧
    (∀ (tpl : PageTemplate) (data : Dict Str) (saved : List Str) (line : Str) (rest : List Str),
      (∀ e ∈ tpl.entries, truthyStr (extract_between line e.2.1 e.2.2) = false) →
      pageSaveAux tpl data saved (line :: rest) =
        (line :: (pageSaveAux tpl data saved rest).1, (pageSaveAux tpl data saved rest).2)) := by
  refine ⟨fun p s => ?_, fun p s => ?_, fun tpl lines k h => ?_, fun tpl data saved line rest h => ?_⟩
  · cases h : extract_between (p ++ s) p s with
    | none => rfl
    | some g =>
      obtain ⟨a, b, hab, hlen, _⟩ := extract_between_some p s _ g h
      have hL := congrArg List.length hab
      simp [List.length_append] at hL
      omega
  · cases h : extract_between (p ++ s ++ ['\n']) p s with
    | none => rfl
    | some g =>
      obtain ⟨a, b, hab, hlen, hnl⟩ := extract_between_some p s _ g h
      have hL := congrArg List.length hab
      simp [List.length_append] at hL
      have ha : a = [] := List.length_eq_zero.mp (by omega)
      have hb : b = [] := List.length_eq_zero.mp (by omega)
      obtain ⟨ch, hch⟩ := List.length_eq_one.mp (show g.length = 1 by omega)
      subst ha hb hch
      simp only [List.nil_append, List.append_nil, List.append_assoc] at hab
      have hcons : s ++ ['\n'] = ch :: s := by
        have := List.append_cancel_left hab
        simpa using this
      have : '\n' = ch := append_singleton_eq_cons s '\n' ch hcons
      exact absurd (this ▸ List.mem_singleton_self ch) hnl
  · exact pageLoad_foldl_not_found tpl k lines [] h rfl
  · have hnone : tpl.entries.find? (fun e =>
        !saved.contains e.1 && matchesField line e) = none := by
      rw [List.find?_eq_none]
      intro e he
      simp [matchesField, h e he]
    simp only [pageSaveAux]
    rw [hnone]

/-- A page template with `title` and `year` fields. -/
def pageTplTY : PageTemplate :=
  { entries := [(str "title", str "# ", str "\n"), (str "year", str "- year: ", str "\n")]
    layout := [] }

/-- Witness for C10 at concrete inputs: the empty-valued `year` line
`- year: \n` is neither extracted by `Page.load` nor recognised (hence not
rewritten) by `Page.save`. -/
theorem claim10_empty_value_is_absent_witness :
    extract_between (str "- year: " ++ str "#") (str "- year: ") (str "#") = none ∧
    extract_between (str "- year: " ++ [] ++ ['\n']) (str "- year: ") [] = none ∧
    dictFind (pageLoad pageTplTY [str "- year: \n", str "x\n"]) (str "year") = none ∧
    pageSaveAux pageTplTY [(str "title", str "T"), (str "year", str "Y")] []
        [str "- year: \n", str "x\n"] =
      (str "- year: \n" ::
        (pageSaveAux pageTplTY [(str "title", str "T"), (str "year", str "Y")] [] [str "x\n"]).1,
       (pageSaveAux pageTplTY [(str "title", str "T"), (str "year", str "Y")] [] [str "x\n"]).2) := by
  refine ⟨?_, ?_, ?_, ?_⟩
  · exact claim10_empty_value_is_absent.1 (str "- year: ") (str "#")
  · exact claim10_empty_value_is_absent.2.1 (str "- year: ") []
  · exact claim10_empty_value_is_absent.2.2.1 pageTplTY [str "- year: \n", str "x\n"]
      (str "year") (by decide)
  · exact claim10_empty_value_is_absent.2.2.2 pageTplTY
      [(str "title", str "T"), (str "year", str "Y")] [] (str "- year: \n") [str "x\n"]
      (by decide)

/-! ### A declarative rendering of `Page.save` (for C9) -/

/-- The index of the first line a field's marker matches. -/
def firstMatchIdx (e : Str × Str × Str) : List Str → Option Nat
  | [] => none
  | l :: rest => if matchesField l e then some 0 else (firstMatchIdx e rest).map (· + 1)

/-- `i` is the first line index matched by field `e`. -/
def isFirstMatch (lines : List Str) (e : Str × Str × Str) (i : Nat) : Bool :=
  decide (firstMatchIdx e lines = some i)

/-- The spec's description of `Page.save`, written declaratively: line `i`
is replaced by `prefix + data[key] + suffix` iff it is the *first* line the
(unique) matching field's marker matches; every other line passes through
unchanged, and nothing is appended for fields that never match. -/
def pageSaveSpecFrom (tpl : PageTemplate) (data : Dict Str) (lines : List Str) :
    Nat → List Str → List Str
  | _, [] => []
  | i, l :: rest =>
    (match tpl.entries.find? (fun e => matchesField l e && isFirstMatch lines e i) with
     | some e => e.2.1 ++ dictGetStr data e.1 ++ e.2.2
     | none => l) :: pageSaveSpecFrom tpl data lines (i + 1) rest

/-- The declarative rendering of `Page.save` over a whole file. -/
def pageSaveSpec (tpl : PageTemplate) (data : Dict Str) (lines : List Str) : List Str :=
  pageSaveSpecFrom tpl data lines 0 lines

/-- `find?` only depends on the predicate's values on the list. -/
theorem find?_congr_mem {α : Type} (l : List α) (p q : α → Bool)
    (h : ∀ a ∈ l, p a = q a) : l.find? p = l.find? q := by
  induction l with
  | nil => rfl
  | cons a l ih =>
    have ha := h a (List.mem_cons_self a l)
    rw [List.find?_cons, List.find?_cons, ha]
    cases hq : q a with
    | true => rfl
    | false => exact ih (fun x hx => h x (List.mem_cons_of_mem a hx))

/-- The first-match index is the length of `done` exactly when nothing in
`done` matches and the line after `done` does. -/
theorem firstMatchIdx_append (e : Str × Str × Str) (l : Str) (rest : List Str) :
    ∀ done : List Str,
      firstMatchIdx e (done ++ l :: rest) = some done.length ↔
        ((∀ d ∈ done, matchesField d e = false) ∧ matchesField l e = true) := by
  intro done
  induction done with
  | nil =>
    simp only [List.nil_append, firstMatchIdx, List.length_nil]
    by_cases hl : matchesField l e
    · simp [hl]
    · simp only [if_neg hl]
      constructor
      · intro h
        obtain ⟨m, _, hm⟩ := Option.map_eq_some'.mp h
        exact absurd hm (by omega)
      · rintro ⟨-, hl'⟩
        exact absurd hl' (by simpa using hl)
  | cons d done ih =>
    simp only [List.cons_append, firstMatchIdx, List.length_cons]
    by_cases hd : matchesField d e
    · rw [if_pos hd]
      constructor
      · intro h
        exact absurd (Option.some.inj h) (by omega)
      · rintro ⟨hdone, -⟩
        exact absurd (hdone d (List.mem_cons_self d done)) (by simp [hd])
    · rw [if_neg hd]
      constructor
      · intro h
        obtain ⟨m, hm, hm1⟩ := Option.map_eq_some'.mp h
        obtain rfl : m = done.length := by omega
        obtain ⟨h1, h2⟩ := ih.mp hm
        refine ⟨fun x hx => ?_, h2⟩
        rcases List.mem_cons.mp hx with rfl | hx
        · simpa using hd
        · exact h1 x hx
      · rintro ⟨hdone, hl⟩
        have := ih.mpr ⟨fun x hx => hdone x (List.mem_cons_of_mem d hx), hl⟩
        simp only [List.append_eq]
        rw [this]
        simp

/-- The declarative rendering is line-for-line: it preserves the count. -/
theorem pageSaveSpecFrom_length (tpl : PageTemplate) (data : Dict Str) (lines : List Str) :
    ∀ (rest : List Str) (i : Nat), (pageSaveSpecFrom tpl data lines i rest).length = rest.length := by
  intro rest
  induction rest with
  | nil => intro i; rfl
  | cons l rest ih => intro i; simp only [pageSaveSpecFrom, List.length_cons, ih]

/-- The loop of `Page.save` agrees with the declarative rendering: the
consumed-key set built so far corresponds to the fields whose first match
lies in the already-processed region `done`. -/
theorem pageSaveAux_eq_spec (tpl : PageTemplate) (data : Dict Str) (lines : List Str)
    (hkeys : (tpl.entries.map (fun e => e.1)).Nodup)
    (hdisj : ∀ l ∈ lines, ∀ e1 ∈ tpl.entries, ∀ e2 ∈ tpl.entries,
      matchesField l e1 = true → matchesField l e2 = true → e1 = e2) :
    ∀ (rest done saved : List Str),
      lines = done ++ rest →
      (∀ e ∈ tpl.entries, (saved.contains e.1 = true ↔ ∃ d ∈ done, matchesField d e = true)) →
      (pageSaveAux tpl data saved rest).1 = pageSaveSpecFrom tpl data lines done.length rest := by
  intro rest
  induction rest with
  | nil => intro done saved _ _; rfl
  | cons l rest ih =>
    intro done saved hsplit hsaved
    have hlmem : l ∈ lines := by
      rw [hsplit]; exact List.mem_append_right done (List.mem_cons_self l rest)
    have hpred : ∀ e ∈ tpl.entries,
        (!saved.contains e.1 && matchesField l e)
          = (matchesField l e && isFirstMatch lines e done.length) := by
      intro e he
      by_cases hm : matchesField l e = true
      · rw [hm, Bool.and_true, Bool.true_and, isFirstMatch, hsplit]
        cases hc : saved.contains e.1 with
        | true =>
          have hex := (hsaved e he).mp hc
          have hne : ¬firstMatchIdx e (done ++ l :: rest) = some done.length := by
            rw [firstMatchIdx_append]
            rintro ⟨hall, -⟩
            obtain ⟨d, hd, hmd⟩ := hex
            rw [hall d hd] at hmd
            exact Bool.false_ne_true hmd
          simp [hne]
        | false =>
          have hnex : ¬∃ d ∈ done, matchesField d e = true := fun hex => by
            have := (hsaved e he).mpr hex
            rw [hc] at this
            exact Bool.false_ne_true this
          have heq : firstMatchIdx e (done ++ l :: rest) = some done.length := by
            rw [firstMatchIdx_append]
            exact ⟨fun d hd => Bool.eq_false_iff.mpr (fun hmd => hnex ⟨d, hd, hmd⟩), hm⟩
          simp [heq]
      · have hmf : matchesField l e = false := Bool.eq_false_iff.mpr hm
        simp [hmf]
    have hfind := find?_congr_mem tpl.entries _ _ hpred
    cases hf : tpl.entries.find? (fun e => matchesField l e && isFirstMatch lines e done.length) with
    | some e =>
      have hemem := List.mem_of_find?_eq_some hf
      have himpl : (!saved.contains e.1 && matchesField l e) = true := by
        rw [hpred e hemem]
        have hp := List.find?_some hf
        exact hp
      rw [Bool.and_eq_true] at himpl
      have hml : matchesField l e = true := himpl.2
      have htail := ih (done ++ [l]) (e.1 :: saved)
        (by rw [hsplit, List.append_assoc]; rfl)
        (by
          intro e' he'
          rw [List.contains_cons]
          constructor
          · intro h
            simp only [Bool.or_eq_true] at h
            rcases h with h1 | h2
            · have hkey : e'.1 = e.1 := by simpa using h1
              have : e' = e :=
                List.inj_on_of_nodup_map hkeys he' hemem hkey
              subst this
              exact ⟨l, by simp, hml⟩
            · obtain ⟨d, hd, hmd⟩ := (hsaved e' he').mp h2
              exact ⟨d, by simp [hd], hmd⟩
          · rintro ⟨d, hd, hmd⟩
            rcases List.mem_append.mp hd with hd1 | hd2
            · have := (hsaved e' he').mpr ⟨d, hd1, hmd⟩
              rw [this, Bool.or_true]
            · have hdl : d = l := by simpa using hd2
              subst hdl
              have : e' = e := hdisj d hlmem e' he' e hemem hmd hml
              subst this
              simp)
      rw [List.length_append, List.length_singleton] at htail
      have hstep : pageSaveAux tpl data saved (l :: rest)
          = ((e.2.1 ++ dictGetStr data e.1 ++ e.2.2) :: (pageSaveAux tpl data (e.1 :: saved) rest).1,
             (pageSaveAux tpl data (e.1 :: saved) rest).2) := by
        simp only [pageSaveAux]
        rw [hfind, hf]
      have hspec : pageSaveSpecFrom tpl data lines done.length (l :: rest)
          = (e.2.1 ++ dictGetStr data e.1 ++ e.2.2)
            :: pageSaveSpecFrom tpl data lines (done.length + 1) rest := by
        simp only [pageSaveSpecFrom]
        rw [hf]
      rw [hstep, hspec]
      simp only [htail]
    | none =>
      have hnone : ∀ e ∈ tpl.entries, ¬((matchesField l e && isFirstMatch lines e done.length) = true) :=
        fun e he => List.find?_eq_none.mp hf e he
      have htail := ih (done ++ [l]) saved
        (by rw [hsplit, List.append_assoc]; rfl)
        (by
          intro e' he'
          constructor
          · intro h
            obtain ⟨d, hd, hmd⟩ := (hsaved e' he').mp h
            exact ⟨d, by simp [hd], hmd⟩
          · rintro ⟨d, hd, hmd⟩
            rcases List.mem_append.mp hd with hd1 | hd2
            · exact (hsaved e' he').mpr ⟨d, hd1, hmd⟩
            · have hdl : d = l := by simpa using hd2
              subst hdl
              by_contra hcs
              apply hnone e' he'
              rw [← hpred e' he']
              have hcs' : saved.contains e'.1 = false := by
                cases hx : saved.contains e'.1 with
                | false => rfl
                | true => exact absurd hx hcs
              rw [hcs', hmd]
              rfl)
      rw [List.length_append, List.length_singleton] at htail
      have hstep : pageSaveAux tpl data saved (l :: rest)
          = (l :: (pageSaveAux tpl data saved rest).1, (pageSaveAux tpl data saved rest).2) := by
        simp only [pageSaveAux]
        rw [hfind, hf]
      have hspec : pageSaveSpecFrom tpl data lines done.length (l :: rest)
          = l :: pageSaveSpecFrom tpl data lines (done.length + 1) rest := by
        simp only [pageSaveSpecFrom]
        rw [hf]
      rw [hstep, hspec]
      simp only [htail]

/-- C9: `Page.save` replaces exactly one physical line per field whose
marker appears — the first matching line, substituting the new value
wrapped in the same prefix/suffix marker — passes every other line through
unchanged, and silently drops (never appends) fields whose marker never
appears: the rewritten file equals the declarative per-line rendering and
has exactly as many lines as the input.  Hypotheses: distinct field keys,
at most one field matches any line, and (as the source would otherwise
raise `KeyError`) every field key is present in `data`. -/
theorem claim9_save_replaces_first_matches (tpl : PageTemplate) (data : Dict Str) (lines : List Str)
    (hkeys : (tpl.entries.map (fun e => e.1)).Nodup)
    (hdisj : ∀ l ∈ lines, ∀ e1 ∈ tpl.entries, ∀ e2 ∈ tpl.entries,
      matchesField l e1 = true → matchesField l e2 = true → e1 = e2)
    (hdata : ∀ e ∈ tpl.entries, dictHas data e.1 = true) :
    pageSave tpl data lines = pageSaveSpec tpl data lines ∧
    (pageSave tpl data lines).length = lines.length := by
  have h1 : pageSave tpl data lines = pageSaveSpec tpl data lines :=
    pageSaveAux_eq_spec tpl data lines hkeys hdisj lines [] [] rfl (by intro e _; simp)
  refine ⟨h1, ?_⟩
  rw [h1]
  exact pageSaveSpecFrom_length tpl data lines lines 0

/-- Witness for C9: a concrete page with a `title` line and two `year`
lines; the title line and the first `year` line are replaced with the new
values, the second `year` line and the unmarked line pass through. -/
theorem claim9_save_replaces_first_matches_witness :
    pageSave pageTplTY [(str "title", str "NEW"), (str "year", str "2024")]
        [str "# Old\n", str "x\n", str "- year: 1999\n", str "- year: 1998\n"]
      = pageSaveSpec pageTplTY [(str "title", str "NEW"), (str "year", str "2024")]
        [str "# Old\n", str "x\n", str "- year: 1999\n", str "- year: 1998\n"] ∧
    (pageSave pageTplTY [(str "title", str "NEW"), (str "year", str "2024")]
        [str "# Old\n", str "x\n", str "- year: 1999\n", str "- year: 1998\n"]).length = 4 := by
  exact claim9_save_replaces_first_matches pageTplTY
    [(str "title", str "NEW"), (str "year", str "2024")]
    [str "# Old\n", str "x\n", str "- year: 1999\n", str "- year: 1998\n"]
    (by decide) (by decide) (by decide)

/-! ### String lemmas for the scanner proofs -/

/-- Dropping while a predicate holds skips a block where it always holds. -/
theorem dropWhile_append_of_all {α : Type} (p : α → Bool) (xs ys : List α)
    (h : ∀ a ∈ xs, p a = true) : (xs ++ ys).dropWhile p = ys.dropWhile p := by
  induction xs with
  | nil => rfl
  | cons a xs ih =>
    rw [List.cons_append, List.dropWhile_cons, if_pos (h a (List.mem_cons_self a xs))]
    exact ih (fun b hb => h b (List.mem_cons_of_mem a hb))

/-- `rstrip` ignores an all-whitespace tail. -/
theorem rstrip_append_all_space (l w : Str) (h : ∀ c ∈ w, isPySpace c = true) :
    rstrip (l ++ w) = rstrip l := by
  unfold rstrip
  rw [List.reverse_append, dropWhile_append_of_all _ _ _
    (fun c hc => h c (List.mem_reverse.mp hc))]

/-- `rstrip` strips a trailing newline. -/
theorem rstrip_newline (l : Str) : rstrip (l ++ ['\n']) = rstrip l :=
  rstrip_append_all_space l ['\n'] (by decide)

/-- `rstrip` keeps a non-whitespace head. -/
theorem rstrip_cons_nonspace (c : Char) (l : Str) (h : isPySpace c = false) :
    rstrip (c :: l) = c :: rstrip l := by
  unfold rstrip
  rw [show (c :: l).reverse = l.reverse ++ [c] from by simp, List.dropWhile_append]
  by_cases he : (l.reverse.dropWhile isPySpace).isEmpty
  · rw [if_pos he]
    rw [List.isEmpty_iff] at he
    rw [he]
    simp [List.dropWhile_cons, h]
  · rw [if_neg he]
    simp

/-- `lstrip` keeps a non-whitespace head. -/
theorem lstrip_cons_nonspace (c : Char) (l : Str) (h : isPySpace c = false) :
    lstrip (c :: l) = c :: l := by
  simp [lstrip, List.dropWhile_cons, h]

/-- `strip()` of a pipe-headed line keeps the pipe in front. -/
theorem pyStrip_cons_pipe (l : Str) : pyStrip ('|' :: l) = '|' :: rstrip l := by
  unfold pyStrip
  rw [lstrip_cons_nonspace '|' l (by decide), rstrip_cons_nonspace '|' l (by decide)]

/-- A pipe-headed line is recognised as a table row by the scanner. -/
theorem isTableRow_cons_pipe (l : Str) : isTableRow ('|' :: l) = true := by
  simp [isTableRow, startswith, pyStrip_cons_pipe, List.isPrefixOf]

/-- Whitespace removal distributes over append. -/
theorem stripWS_append (a b : Str) : stripWS (a ++ b) = stripWS a ++ stripWS b :=
  List.filter_append _ _

/-- Whitespace removal distributes over `join`. -/
theorem stripWS_join (sep : Str) (parts : List Str) :
    stripWS (join sep parts) = join (stripWS sep) (parts.map stripWS) := by
  induction parts with
  | nil => rfl
  | cons p rest ih =>
    cases rest with
    | nil => rfl
    | cons q rest' =>
      rw [show join sep (p :: q :: rest') = p ++ sep ++ join sep (q :: rest') from rfl]
      rw [stripWS_append, stripWS_append, ih]
      rfl

/-- Left-justification only adds whitespace, which `stripWS` removes. -/
theorem stripWS_ljust (s : Str) (w : Nat) : stripWS (ljust s w) = stripWS s := by
  unfold ljust
  rw [stripWS_append]
  simp [stripWS, List.filter_replicate, isPySpace]

/-- The whitespace-stripped form of a rendered pipe row, in terms of its
cells. -/
theorem stripWS_pipe_row (cells : List Str) :
    stripWS (str "| " ++ join (str " | ") cells ++ str " |" ++ ['\n'])
      = ['|'] ++ join ['|'] (cells.map stripWS) ++ ['|'] := by
  rw [stripWS_append, stripWS_append, stripWS_append, stripWS_join]
  have h1 : stripWS (str "| ") = ['|'] := by decide
  have h2 : stripWS (str " | ") = ['|'] := by decide
  have h3 : stripWS (str " |") = ['|'] := by decide
  have h4 : stripWS ['\n'] = [] := by decide
  rw [h1, h2, h3, h4, List.append_nil]

/-- The table signature, in terms of the stripped headers. -/
theorem table_signature_eq (tpl : IndexTemplate) :
    table_signature tpl = ['|'] ++ join ['|'] ((headersList tpl).map stripWS) ++ ['|'] := by
  unfold table_signature
  rw [stripWS_append, stripWS_append, stripWS_join]
  have h1 : stripWS ['|'] = ['|'] := by decide
  rw [h1]

/-- The create-time header line matches the table signature after
whitespace stripping. -/
theorem stripWS_create_header (tpl : IndexTemplate) :
    stripWS (str "| " ++ join (str " | ") (headersList tpl) ++ str " |" ++ ['\n'])
      = table_signature tpl := by
  rw [stripWS_pipe_row, table_signature_eq]

/-- Any rendered header line (whatever the column widths) matches the table
signature after whitespace stripping. -/
theorem stripWS_headerLine (tpl : IndexTemplate) (width : Str → Nat) :
    stripWS (headerLine tpl width) = table_signature tpl := by
  unfold headerLine
  rw [stripWS_pipe_row, table_signature_eq]
  congr 1
  congr 1
  congr 1
  unfold headersList
  rw [List.map_map, List.map_map]
  exact List.map_congr_left (fun c _ => stripWS_ljust (tpl.headers c) (width c))

/-- `Index.load` on a three-line document — one marker line carrying the
title `Index`, one signature-matching header line, one pipe-headed
separator line — yields exactly one table, titled `Index`, with no rows and
the empty range `[3, 3)`. -/
theorem loadTables_three (tpl : IndexTemplate) (l0 l1 l2 : Str)
    (h0t : extract_between l0 tpl.sep0 tpl.sep1 = some (str "Index"))
    (h0s : stripWS l0 ≠ table_signature tpl)
    (h1t : extract_between l1 tpl.sep0 tpl.sep1 = none)
    (h1s : stripWS l1 = table_signature tpl)
    (h2r : isTableRow l2 = true) :
    loadTables tpl [l0, l1, l2] = [(str "Index", Table.mk [] 3 3)] := by
  have hIdx : ¬(str "Index" = []) := by decide
  unfold loadTables
  simp [loadLoop, scanEnd, h0t, h0s, h1t, h1s, h2r, hIdx, dictSet, dictHas]

/-- `Index.create` followed by the load it performs, computed: one table
titled `Index`, no rows, range `[3, 3)`. -/
theorem create_eq (tpl : IndexTemplate)
    (hsep : extract_between (tpl.sep0 ++ str "Index" ++ tpl.sep1 ++ ['\n'])
      tpl.sep0 tpl.sep1 = some (str "Index"))
    (htsig : stripWS (tpl.sep0 ++ str "Index" ++ tpl.sep1 ++ ['\n']) ≠ table_signature tpl)
    (hhdr : extract_between (str "| " ++ join (str " | ") (headersList tpl) ++ str " |" ++ ['\n'])
      tpl.sep0 tpl.sep1 = none) :
    create tpl = IndexState.mk (createFile tpl) [(str "Index", Table.mk [] 3 3)] := by
  unfold create load
  have h := loadTables_three tpl
    (tpl.sep0 ++ str "Index" ++ tpl.sep1 ++ ['\n'])
    (str "| " ++ join (str " | ") (headersList tpl) ++ str " |" ++ ['\n'])
    (['|'] ++ join ['|'] (tpl.columns.map (fun c => List.replicate ((tpl.headers c).length + 2) '-')) ++ ['|', '\n'])
    hsep htsig hhdr (stripWS_create_header tpl)
    (isTableRow_cons_pipe _)
  rw [show loadTables tpl (createFile tpl)
    = loadTables tpl [tpl.sep0 ++ str "Index" ++ tpl.sep1 ++ ['\n'],
        str "| " ++ join (str " | ") (headersList tpl) ++ str " |" ++ ['\n'],
        ['|'] ++ join ['|'] (tpl.columns.map (fun c => List.replicate ((tpl.headers c).length + 2) '-')) ++ ['|', '\n']] from rfl, h]

/-- C7: `Index.create` followed immediately by `Index.load` yields exactly
one table, titled `Index`, with zero rows and the empty range
`start_line = end_line = 3`, the computed data-row start (line 0 is the
title marker, line 1 the header, line 2 the separator).  Hypotheses: the
template's marker extracts `Index` from the created title line and matches
neither the created title line's signature test nor the header line, and
(for the faithfulness of the line model) no template string contains a
newline. -/
theorem claim7_create_then_load (tpl : IndexTemplate)
    (hsep : extract_between (tpl.sep0 ++ str "Index" ++ tpl.sep1 ++ ['\n'])
      tpl.sep0 tpl.sep1 = some (str "Index"))
    (htsig : stripWS (tpl.sep0 ++ str "Index" ++ tpl.sep1 ++ ['\n']) ≠ table_signature tpl)
    (hhdr : extract_between (str "| " ++ join (str " | ") (headersList tpl) ++ str " |" ++ ['\n'])
      tpl.sep0 tpl.sep1 = none)
    (hnl : ∀ c ∈ tpl.sep0 ++ tpl.sep1 ++ (headersList tpl).flatten, c ≠ '\n') :
    create tpl = IndexState.mk (createFile tpl) [(str "Index", Table.mk [] 3 3)] :=
  create_eq tpl hsep htsig hhdr

/-- Witness for C7 at the concrete one-column template `tpl1`. -/
theorem claim7_create_then_load_witness :
    create tpl1 = IndexState.mk (createFile tpl1) [(str "Index", Table.mk [] 3 3)] :=
  claim7_create_then_load tpl1 (by decide) (by decide) (by decide) (by decide)

/-! ### Cell-level round-trip lemmas (for C6) -/

/-- A cell value that survives the writer/scanner unchanged: no pipe (so
escaping and splitting are trivial), no newline (line model), no
surrounding whitespace (trimming), and not of markdown-link shape. -/
def cleanCell (v : Str) : Bool :=
  v.all (fun c => !(c = '|') && !(c = '\n')) &&
    decide (pyStrip v = v) && decide (strip_markdown_link v = v)

/-- Escaping is the identity on pipe-free values. -/
theorem escapePipes_eq_self (v : Str) (h : ∀ c ∈ v, ¬c = '|') : escapePipes v = v := by
  induction v with
  | nil => rfl
  | cons c rest ih =>
    unfold escapePipes at ih ⊢
    simp only [List.map_cons, List.flatten_cons, if_neg (h c (List.mem_cons_self c rest))]
    rw [ih (fun d hd => h d (List.mem_cons_of_mem c hd))]
    rfl

/-- `lstrip` fixes a string iff already fixed by `pyStrip`. -/
theorem lstrip_of_pyStrip_id (v : Str) (h : pyStrip v = v) : lstrip v = v := by
  have hsf : v.dropWhile isPySpace <:+ v := List.dropWhile_suffix isPySpace
  have hlen1 : (lstrip v).length ≤ v.length := hsf.length_le
  have hsf2 : rstrip (lstrip v) = v := h
  have hlen2 : (rstrip (lstrip v)).length ≤ (lstrip v).length := by
    unfold rstrip
    have := (List.dropWhile_suffix isPySpace (l := (lstrip v).reverse)).length_le
    simpa using this
  have : (lstrip v).length = v.length := by rw [hsf2] at hlen2; omega
  exact hsf.eq_of_length this

/-- `rstrip` fixes a string already fixed by `pyStrip`. -/
theorem rstrip_of_pyStrip_id (v : Str) (h : pyStrip v = v) : rstrip v = v := by
  have hl := lstrip_of_pyStrip_id v h
  unfold pyStrip at h
  rw [hl] at h
  exact h

/-- A nonempty `lstrip`-fixed string has a non-whitespace head. -/
theorem head_nonspace_of_lstrip_id (c : Char) (v : Str) (h : lstrip (c :: v) = c :: v) :
    isPySpace c = false := by
  by_contra hc
  have hc' : isPySpace c = true := by
    cases hx : isPySpace c with
    | false => exact absurd hx hc
    | true => rfl
  unfold lstrip at h
  rw [List.dropWhile_cons, if_pos hc'] at h
  have := congrArg List.length h
  have hle := (List.dropWhile_suffix (l := v) isPySpace).length_le
  simp at this
  omega

/-- Stripping a cell that was space-wrapped and space-padded recovers the
already-trimmed value. -/
theorem pyStrip_spaced_ljust (v : Str) (hv : pyStrip v = v) (w : Nat) :
    pyStrip (' ' :: (ljust v w ++ [' '])) = v := by
  unfold ljust
  have hsp : ∀ c ∈ List.replicate (w - v.length) ' ' ++ [' '], isPySpace c = true := by
    intro c hc
    rcases List.mem_append.mp hc with h1 | h2
    · rw [List.eq_of_mem_replicate h1]; rfl
    · rw [List.mem_singleton.mp h2]; rfl
  cases hve : v with
  | nil =>
    subst hve
    unfold pyStrip lstrip
    rw [List.dropWhile_cons]
    simp only [List.nil_append]
    rw [if_pos (by rfl)]
    rw [dropWhile_append_of_all _ _ _ (fun c hc => by rw [List.eq_of_mem_replicate hc]; rfl)]
    rfl
  | cons c v' =>
    have hlv : lstrip v = v := lstrip_of_pyStrip_id v hv
    have hc : isPySpace c = false := head_nonspace_of_lstrip_id c v' (hve ▸ hlv)
    rw [← hve]
    unfold pyStrip
    have hstep1 : lstrip (' ' :: (v ++ List.replicate (w - v.length) ' ' ++ [' ']))
        = v ++ List.replicate (w - v.length) ' ' ++ [' '] := by
      unfold lstrip
      rw [List.dropWhile_cons, if_pos (by rfl)]
      rw [hve]
      rw [show (c :: v') ++ List.replicate (w - (c :: v').length) ' ' ++ [' ']
        = c :: (v' ++ List.replicate (w - (c :: v').length) ' ' ++ [' ']) from by simp]
      rw [List.dropWhile_cons, if_neg (by rw [hc]; exact Bool.false_ne_true)]
    rw [hstep1]
    rw [show v ++ List.replicate (w - v.length) ' ' ++ [' ']
      = v ++ (List.replicate (w - v.length) ' ' ++ [' ']) from by simp]
    rw [rstrip_append_all_space _ _ hsp]
    exact rstrip_of_pyStrip_id v hv

/-- Splitting never yields the empty list of parts. -/
theorem splitOnChar_ne_nil (sep : Char) (s : Str) : splitOnChar sep s ≠ [] := by
  cases s with
  | nil => simp [splitOnChar]
  | cons c rest =>
    unfold splitOnChar
    cases h : splitOnChar sep rest with
    | nil => simp
    | cons h t => by_cases hc : c = sep <;> simp [hc]

/-- The splitting step for a leading separator. -/
theorem splitOnChar_cons_sep (sep : Char) (m : Str) :
    splitOnChar sep (sep :: m) = [] :: splitOnChar sep m := by
  rw [show splitOnChar sep (sep :: m)
    = (match splitOnChar sep m with
       | [] => [[sep]]
       | h :: t => if sep = sep then [] :: h :: t else (sep :: h) :: t) from rfl]
  cases h : splitOnChar sep m with
  | nil => exact absurd h (splitOnChar_ne_nil sep m)
  | cons a t => simp

/-- The splitting step for a leading non-separator character. -/
theorem splitOnChar_cons_of (sep c : Char) (m h : Str) (t : List Str)
    (hm : splitOnChar sep m = h :: t) (hc : ¬c = sep) :
    splitOnChar sep (c :: m) = (c :: h) :: t := by
  unfold splitOnChar
  rw [hm]
  simp [hc]

/-- Splitting a separator-free string yields a single part. -/
theorem splitOnChar_no_sep (sep : Char) (s : Str) (h : ∀ c ∈ s, ¬c = sep) :
    splitOnChar sep s = [s] := by
  induction s with
  | nil => rfl
  | cons c rest ih =>
    exact splitOnChar_cons_of sep c rest rest []
      (ih (fun d hd => h d (List.mem_cons_of_mem c hd))) (h c (List.mem_cons_self c rest))

/-- Splitting a string that starts with a separator-free part followed by a
separator peels off that part. -/
theorem splitOnChar_append_sep (sep : Char) (p m : Str) (hp : ∀ c ∈ p, ¬c = sep) :
    splitOnChar sep (p ++ sep :: m) = p :: splitOnChar sep m := by
  induction p with
  | nil => exact splitOnChar_cons_sep sep m
  | cons c p' ih =>
    rw [List.cons_append]
    exact splitOnChar_cons_of sep c (p' ++ sep :: m) p' (splitOnChar sep m)
      (ih (fun d hd => hp d (List.mem_cons_of_mem c hd))) (hp c (List.mem_cons_self c p'))

/-- Splitting the `sep`-join of separator-free parts recovers the parts. -/
theorem splitOnChar_join (sep : Char) (parts : List Str) (hne : parts ≠ [])
    (hfree : ∀ p ∈ parts, ∀ c ∈ p, ¬c = sep) :
    splitOnChar sep (join [sep] parts) = parts := by
  induction parts with
  | nil => exact absurd rfl hne
  | cons p rest ih =>
    cases rest with
    | nil => exact splitOnChar_no_sep sep p (hfree p (List.mem_cons_self p []))
    | cons q rest' =>
      rw [show join [sep] (p :: q :: rest') = p ++ sep :: join [sep] (q :: rest') from by
        simp [join]]
      rw [splitOnChar_append_sep sep p _ (hfree p (List.mem_cons_self p _))]
      rw [ih (by simp) (fun x hx c hc => hfree x (List.mem_cons_of_mem p hx) c hc)]

/-- Wrapping the joined cells in spaces turns the `" | "`-join into a
`"|"`-join of space-wrapped cells. -/
theorem spaced_join (cells : List Str) (h : cells ≠ []) :
    ' ' :: (join (str " | ") cells ++ [' '])
      = join ['|'] (cells.map (fun cl => ' ' :: (cl ++ [' ']))) := by
  induction cells with
  | nil => exact absurd rfl h
  | cons p rest ih =>
    cases rest with
    | nil => simp [join]
    | cons q rest' =>
      have hgap : str " | " = [' ', '|', ' '] := rfl
      rw [show join (str " | ") (p :: q :: rest') = p ++ str " | " ++ join (str " | ") (q :: rest')
        from rfl]
      rw [show join ['|'] ((p :: q :: rest').map (fun cl => ' ' :: (cl ++ [' '])))
        = (' ' :: (p ++ [' '])) ++ ['|'] ++ join ['|'] ((q :: rest').map (fun cl => ' ' :: (cl ++ [' '])))
        from rfl]
      rw [← ih (by simp)]
      rw [hgap]
      simp

/-- Stripping the boundary pipes of a rendered row. -/
theorem stripPipes_wrap (X : Str) :
    stripPipes ('|' :: (' ' :: (X ++ [' ', '|']))) = ' ' :: (X ++ [' ']) := by
  unfold stripPipes
  rw [List.dropWhile_cons, if_pos (by rfl)]
  rw [List.dropWhile_cons, if_neg (by decide)]
  rw [show (' ' :: (X ++ [' ', '|'])).reverse = '|' :: ' ' :: (' ' :: X).reverse from by simp]
  rw [List.dropWhile_cons, if_pos (by rfl)]
  rw [List.dropWhile_cons, if_neg (by decide)]
  simp

/-- `rstrip` keeps a non-whitespace last character. -/
theorem rstrip_append_nonspace (l : Str) (ch : Char) (h : isPySpace ch = false) :
    rstrip (l ++ [ch]) = l ++ [ch] := by
  unfold rstrip
  rw [List.reverse_append, List.reverse_singleton, List.singleton_append]
  rw [List.dropWhile_cons, if_neg (by rw [h]; exact Bool.false_ne_true)]
  simp

/-- Lookup in a zip dict at its own head column. -/
theorem dictGetStr_zip_cons_self (c : Str) (cols : List Str) (v : Str) (vs : List Str) :
    dictGetStr ((c :: cols).zip (v :: vs)) c = v := by
  simp [dictGetStr, dictFind, List.find?]

/-- Lookup in a zip dict skips a different head column. -/
theorem dictGetStr_zip_cons_ne (c c' : Str) (cols : List Str) (v : Str) (vs : List Str)
    (h : ¬c = c') :
    dictGetStr ((c :: cols).zip (v :: vs)) c' = dictGetStr (cols.zip vs) c' := by
  simp [dictGetStr, dictFind, List.find?, h, List.zip]

/-- Reading every column of `dict(zip(columns, values))` back gives the
values, provided the columns are distinct. -/
theorem map_dictGetStr_zip (cols vs : List Str) (hnd : cols.Nodup)
    (hlen : vs.length = cols.length) :
    cols.map (fun c => dictGetStr (cols.zip vs) c) = vs := by
  induction cols generalizing vs with
  | nil =>
    cases vs with
    | nil => rfl
    | cons v vs' => simp at hlen
  | cons c cols' ih =>
    cases vs with
    | nil => simp at hlen
    | cons v vs' =>
      rw [List.map_cons, dictGetStr_zip_cons_self]
      congr 1
      have hcn : c ∉ cols' := (List.nodup_cons.mp hnd).1
      rw [List.map_congr_left (fun c' hc' =>
        dictGetStr_zip_cons_ne c c' cols' v vs' (fun he => by subst he; exact hcn hc'))]
      exact ih vs' (List.nodup_cons.mp hnd).2 (by simpa using hlen)

/-- A zip dict has no key outside the columns. -/
theorem dictHas_zip_not_mem (cols vs : List Str) (k : Str) (h : k ∉ cols) :
    dictHas (cols.zip vs) k = false := by
  induction cols generalizing vs with
  | nil => rfl
  | cons c cols' ih =>
    cases vs with
    | nil => rfl
    | cons v vs' =>
      have hck : ¬c = k := fun he => h (by rw [he]; exact List.mem_cons_self k cols')
      simp only [List.zip_cons_cons, dictHas, List.any_cons]
      rw [show decide ((c, v).1 = k) = false from by simp [hck]]
      simpa [dictHas] using ih vs' (fun hm => h (List.mem_cons_of_mem c hm))

/-- Linkification is the identity on a row without a `reference` column. -/
theorem linkify_zip_no_ref (cols vs : List Str) (h : str "reference" ∉ cols) :
    linkify (cols.zip vs) = cols.zip vs := by
  unfold linkify
  rw [dictHas_zip_not_mem cols vs _ h]
  rfl

/-- The scanner's cell extraction applied to a rendered row of pipe-free
cells: strip, strip boundary pipes and split on `'|'` recovers the
space-wrapped cells. -/
theorem parse_cells (cells : List Str) (hne : cells ≠ [])
    (hfree : ∀ p ∈ cells, ∀ ch ∈ p, ¬ch = '|') :
    (splitOnChar '|' (stripPipes (pyStrip
        (str "| " ++ join (str " | ") cells ++ str " |" ++ ['\n'])))).map
        (fun v => strip_markdown_link (pyStrip v))
      = cells.map (fun cl => strip_markdown_link (pyStrip (' ' :: (cl ++ [' '])))) := by
  have h1 : str "| " ++ join (str " | ") cells ++ str " |" ++ ['\n']
      = '|' :: (' ' :: ((join (str " | ") cells ++ [' ', '|']) ++ ['\n'])) := by
    simp [str]
  rw [h1, pyStrip_cons_pipe]
  rw [show (' ' :: ((join (str " | ") cells ++ [' ', '|']) ++ ['\n']))
      = (' ' :: (join (str " | ") cells ++ [' ', '|'])) ++ ['\n'] from by simp]
  rw [rstrip_newline]
  rw [show (' ' :: (join (str " | ") cells ++ [' ', '|']))
      = (' ' :: (join (str " | ") cells ++ [' '])) ++ ['|'] from by simp]
  rw [rstrip_append_nonspace _ '|' (by decide)]
  rw [show '|' :: ((' ' :: (join (str " | ") cells ++ [' '])) ++ ['|'])
      = '|' :: (' ' :: ((join (str " | ") cells ++ [' ', '|']))) from by simp]
  rw [stripPipes_wrap]
  rw [show ' ' :: (join (str " | ") cells ++ [' '])
      = ' ' :: (join (str " | ") cells ++ [' ']) from rfl]
  rw [spaced_join cells hne]
  rw [splitOnChar_join '|' _ (by simp [hne]) (by
    intro p hp ch hch
    obtain ⟨cl, hcl, rfl⟩ := List.mem_map.mp hp
    rcases List.mem_cons.mp hch with rfl | hch2
    · decide
    · rcases List.mem_append.mp hch2 with hch3 | hch4
      · exact hfree cl hcl ch hch3
      · rw [List.mem_singleton.mp hch4]; decide)]
  rw [List.map_map]
  rfl

/-- The components of `cleanCell`. -/
theorem cleanCell_spec (v : Str) (h : cleanCell v = true) :
    (∀ ch ∈ v, ¬ch = '|') ∧ pyStrip v = v ∧ strip_markdown_link v = v := by
  unfold cleanCell at h
  simp only [Bool.and_eq_true, List.all_eq_true, decide_eq_true_eq, Bool.not_eq_true'] at h
  refine ⟨fun ch hch => ?_, h.1.2, h.2⟩
  have h1 := (h.1.1 ch hch).1
  intro he
  rw [he] at h1
  simp at h1

/-- Scanning a rendered data row of a duplicate-free-column template with
clean values recovers the row's entry exactly. -/
theorem parseRowLine_rowLine (tpl : IndexTemplate) (width : Str → Nat) (vs : List Str)
    (hnd : tpl.columns.Nodup) (hlen : vs.length = tpl.columns.length)
    (hne : tpl.columns ≠ []) (hclean : ∀ v ∈ vs, cleanCell v = true) :
    parseRowLine tpl (rowLine tpl width (tpl.columns.zip vs)) = tpl.columns.zip vs := by
  have hvc : ∀ c ∈ tpl.columns, dictGetStr (tpl.columns.zip vs) c ∈ vs := by
    intro c hc
    have hm := map_dictGetStr_zip tpl.columns vs hnd hlen
    have hmem : dictGetStr (tpl.columns.zip vs) c
        ∈ tpl.columns.map (fun c => dictGetStr (tpl.columns.zip vs) c) :=
      List.mem_map_of_mem _ hc
    rwa [hm] at hmem
  have hcells : tpl.columns.map (fun c =>
        ljust (escapePipes (dictGetStr (tpl.columns.zip vs) c)) (width c))
      = tpl.columns.map (fun c => ljust (dictGetStr (tpl.columns.zip vs) c) (width c)) :=
    List.map_congr_left (fun c hc => by
      rw [escapePipes_eq_self _ (cleanCell_spec _ (hclean _ (hvc c hc))).1])
  unfold parseRowLine rowLine
  rw [hcells]
  rw [parse_cells _ (by simp [hne]) (by
    intro p hp ch hch
    obtain ⟨c, hc, rfl⟩ := List.mem_map.mp hp
    unfold ljust at hch
    rcases List.mem_append.mp hch with hch1 | hch2
    · exact (cleanCell_spec _ (hclean _ (hvc c hc))).1 ch hch1
    · rw [List.eq_of_mem_replicate hch2]; decide)]
  rw [List.map_map]
  have hpt : tpl.columns.map ((fun cl => strip_markdown_link (pyStrip (' ' :: (cl ++ [' '])))) ∘
        (fun c => ljust (dictGetStr (tpl.columns.zip vs) c) (width c)))
      = tpl.columns.map (fun c => dictGetStr (tpl.columns.zip vs) c) := by
    refine List.map_congr_left (fun c hc => ?_)
    have hcl := cleanCell_spec _ (hclean _ (hvc c hc))
    show strip_markdown_link (pyStrip (' ' :: (ljust (dictGetStr (tpl.columns.zip vs) c) (width c) ++ [' ']))) = _
    rw [pyStrip_spaced_ljust _ hcl.2.1, hcl.2.2]
  rw [hpt, map_dictGetStr_zip tpl.columns vs hnd hlen]

/-- `Index.load` on a five-line document: title marker, signature-matching
header, then three pipe-headed lines (separator and two data rows) running
to the end of the file — one table titled `Index`, rows parsed from the two
data lines, range `[3, 5)`. -/
theorem loadTables_five (tpl : IndexTemplate) (l0 l1 l2 r1 r2 : Str)
    (h0t : extract_between l0 tpl.sep0 tpl.sep1 = some (str "Index"))
    (h0s : stripWS l0 ≠ table_signature tpl)
    (h1t : extract_between l1 tpl.sep0 tpl.sep1 = none)
    (h1s : stripWS l1 = table_signature tpl)
    (h2r : isTableRow l2 = true)
    (hr1 : isTableRow r1 = true)
    (hr2 : isTableRow r2 = true) :
    loadTables tpl [l0, l1, l2, r1, r2]
      = [(str "Index", Table.mk [parseRowLine tpl r1, parseRowLine tpl r2] 3 5)] := by
  have hIdx : ¬(str "Index" = []) := by decide
  unfold loadTables
  simp [loadLoop, scanEnd, h0t, h0s, h1t, h1s, h2r, hr1, hr2, hIdx, dictSet, dictHas]

/-- `_write_table` on a single-table index (rows already link-free): the
rendered table is spliced over `[start_line - 2, end_line)` and the
recorded end becomes `start_line + rows`. -/
theorem write_table_single (tpl : IndexTemplate) (file : List Str) (rows : List (Dict Str))
    (s e : Nat) (hrows : ∀ r ∈ rows, linkify r = r) :
    write_table tpl (IndexState.mk file [(str "Index", Table.mk rows s e)]) (str "Index")
      = IndexState.mk (file.take (s - 2) ++ renderTable tpl rows ++ file.drop e)
          [(str "Index", Table.mk rows s (s + rows.length))] := by
  have hmap : rows.map linkify = rows := by
    rw [List.map_congr_left (fun r hr => hrows r hr)]
    simp
  unfold write_table getTable
  simp [dictFind, List.find?, hmap]

/-- `insert_row` with a defaulted table name on a single-table index. -/
theorem insert_row_single (tpl : IndexTemplate) (file : List Str) (rows : List (Dict Str))
    (s e : Nat) (v : Dict Str) (hrows : ∀ r ∈ rows ++ [v], linkify r = r) :
    insert_row tpl (IndexState.mk file [(str "Index", Table.mk rows s e)]) v none
      = some (true, IndexState.mk
          (file.take (s - 2) ++ renderTable tpl (rows ++ [v]) ++ file.drop e)
          [(str "Index", Table.mk (rows ++ [v]) s (s + rows.length + 1))]) := by
  unfold insert_row resolveTableName firstKey
  simp only [List.map_cons, List.map_nil, List.head?, getTable, dictFind, List.find?]
  simp
  rw [write_table_single tpl file (rows ++ [v]) s e hrows]
  simp [List.append_assoc]
  omega

/-- C6 counterexample: with a `reference` column, inserting the rows
`a` then `b` into a fresh Index and reloading does *not* recover the
inserted values — the second insert re-linkifies the first row's already
linkified cell (`[[a](a)]([a](a))` in the file), and the loader's
link-stripper recovers `[a` instead of `a`. -/
theorem claim6_reference_column_breaks_roundtrip :
    ((insert_row tplRef (create tplRef) [(str "reference", str "a")] none).bind (fun r1 =>
      (insert_row tplRef r1.2 [(str "reference", str "b")] none).map (fun r2 =>
        loadTables tplRef r2.2.file)))
      = some [(str "Index",
          Table.mk [[(str "reference", str "[a")], [(str "reference", str "b")]] 3 5)] ∧
    ¬(str "[a" = str "a") := by
  decide

/-- C6 (amended): inserting two rows into a freshly created Index and
reloading the file yields exactly those two rows, in insertion order, with
identical field values — for rows that supply exactly the template's
(duplicate-free, non-empty, `reference`-free) columns with clean cell
values (no `|`, no newline, no surrounding whitespace, not markdown-link
shaped), under the usual template well-formedness side conditions. -/
theorem claim6_insert_two_then_load (tpl : IndexTemplate) (vs1 vs2 : List Str)
    (hsep : extract_between (tpl.sep0 ++ str "Index" ++ tpl.sep1 ++ ['\n'])
      tpl.sep0 tpl.sep1 = some (str "Index"))
    (htsig : stripWS (tpl.sep0 ++ str "Index" ++ tpl.sep1 ++ ['\n']) ≠ table_signature tpl)
    (hhdr0 : extract_between (str "| " ++ join (str " | ") (headersList tpl) ++ str " |" ++ ['\n'])
      tpl.sep0 tpl.sep1 = none)
    (hhdr2 : extract_between
      (headerLine tpl (colWidth tpl [tpl.columns.zip vs1, tpl.columns.zip vs2]))
      tpl.sep0 tpl.sep1 = none)
    (hnd : tpl.columns.Nodup) (hne : tpl.columns ≠ [])
    (href : str "reference" ∉ tpl.columns)
    (hlen1 : vs1.length = tpl.columns.length) (hlen2 : vs2.length = tpl.columns.length)
    (hclean1 : ∀ v ∈ vs1, cleanCell v = true) (hclean2 : ∀ v ∈ vs2, cleanCell v = true)
    (hnl : ∀ c ∈ tpl.sep0 ++ tpl.sep1 ++ (headersList tpl).flatten, c ≠ '\n') :
    ∃ st1 st2 : IndexState,
      insert_row tpl (create tpl) (tpl.columns.zip vs1) none = some (true, st1) ∧
      insert_row tpl st1 (tpl.columns.zip vs2) none = some (true, st2) ∧
      loadTables tpl st2.file
        = [(str "Index", Table.mk [tpl.columns.zip vs1, tpl.columns.zip vs2] 3 5)] := by
  have hcreate := create_eq tpl hsep htsig hhdr0
  have hlink1 : linkify (tpl.columns.zip vs1) = tpl.columns.zip vs1 :=
    linkify_zip_no_ref _ _ href
  have hlink2 : linkify (tpl.columns.zip vs2) = tpl.columns.zip vs2 :=
    linkify_zip_no_ref _ _ href
  have hins1 := insert_row_single tpl (createFile tpl) [] 3 3 (tpl.columns.zip vs1)
    (by
      intro r hr
      rw [List.nil_append, List.mem_singleton] at hr
      rw [hr]
      exact hlink1)
  simp only [List.nil_append, List.length_nil, Nat.add_zero, Nat.zero_add] at hins1
  have hins1' : insert_row tpl (create tpl) (tpl.columns.zip vs1) none
      = some (true, IndexState.mk
          ((createFile tpl).take (3 - 2) ++ renderTable tpl [tpl.columns.zip vs1]
            ++ (createFile tpl).drop 3)
          [(str "Index", Table.mk [tpl.columns.zip vs1] 3 (3 + 1))]) := by
    rw [hcreate]
    exact hins1
  have hfile1 : (createFile tpl).take (3 - 2) ++ renderTable tpl [tpl.columns.zip vs1]
      ++ (createFile tpl).drop 3
      = (tpl.sep0 ++ str "Index" ++ tpl.sep1 ++ ['\n'])
        :: renderTable tpl [tpl.columns.zip vs1] := by
    rw [show createFile tpl
      = (tpl.sep0 ++ str "Index" ++ tpl.sep1 ++ ['\n'])
        :: (str "| " ++ join (str " | ") (headersList tpl) ++ str " |" ++ ['\n'])
        :: (['|'] ++ join ['|'] (tpl.columns.map (fun c => List.replicate ((tpl.headers c).length + 2) '-')) ++ ['|', '\n'])
        :: [] from rfl]
    simp
  have hins2 := insert_row_single tpl
    ((tpl.sep0 ++ str "Index" ++ tpl.sep1 ++ ['\n']) :: renderTable tpl [tpl.columns.zip vs1])
    [tpl.columns.zip vs1] 3 (3 + 1) (tpl.columns.zip vs2)
    (by
      intro r hr
      rcases List.mem_append.mp hr with h1 | h2
      · rw [List.mem_singleton.mp h1]; exact hlink1
      · rw [List.mem_singleton.mp h2]; exact hlink2)
  have hfile2 : ((tpl.sep0 ++ str "Index" ++ tpl.sep1 ++ ['\n'])
        :: renderTable tpl [tpl.columns.zip vs1]).take (3 - 2)
      ++ renderTable tpl ([tpl.columns.zip vs1] ++ [tpl.columns.zip vs2])
      ++ ((tpl.sep0 ++ str "Index" ++ tpl.sep1 ++ ['\n'])
        :: renderTable tpl [tpl.columns.zip vs1]).drop (3 + 1)
      = (tpl.sep0 ++ str "Index" ++ tpl.sep1 ++ ['\n'])
        :: renderTable tpl [tpl.columns.zip vs1, tpl.columns.zip vs2] := by
    rw [show renderTable tpl [tpl.columns.zip vs1]
      = [headerLine tpl (colWidth tpl [tpl.columns.zip vs1]),
         dashLine tpl (colWidth tpl [tpl.columns.zip vs1]),
         rowLine tpl (colWidth tpl [tpl.columns.zip vs1]) (tpl.columns.zip vs1)] from rfl]
    simp
  rw [hfile1] at hins1'
  rw [hfile2] at hins2
  refine ⟨_, _, hins1', hins2, ?_⟩
  show loadTables tpl ((tpl.sep0 ++ str "Index" ++ tpl.sep1 ++ ['\n'])
    :: renderTable tpl [tpl.columns.zip vs1, tpl.columns.zip vs2]) = _
  rw [show renderTable tpl [tpl.columns.zip vs1, tpl.columns.zip vs2]
      = [headerLine tpl (colWidth tpl [tpl.columns.zip vs1, tpl.columns.zip vs2]),
         dashLine tpl (colWidth tpl [tpl.columns.zip vs1, tpl.columns.zip vs2]),
         rowLine tpl (colWidth tpl [tpl.columns.zip vs1, tpl.columns.zip vs2]) (tpl.columns.zip vs1),
         rowLine tpl (colWidth tpl [tpl.columns.zip vs1, tpl.columns.zip vs2]) (tpl.columns.zip vs2)]
      from rfl]
  have hd2 : isTableRow (dashLine tpl (colWidth tpl [tpl.columns.zip vs1, tpl.columns.zip vs2]))
      = true := isTableRow_cons_pipe _
  have hrw1 : isTableRow (rowLine tpl (colWidth tpl [tpl.columns.zip vs1, tpl.columns.zip vs2])
      (tpl.columns.zip vs1)) = true := isTableRow_cons_pipe _
  have hrw2 : isTableRow (rowLine tpl (colWidth tpl [tpl.columns.zip vs1, tpl.columns.zip vs2])
      (tpl.columns.zip vs2)) = true := isTableRow_cons_pipe _
  rw [loadTables_five tpl _ _ _ _ _ hsep htsig hhdr2
    (stripWS_headerLine tpl _) hd2 hrw1 hrw2]
  rw [parseRowLine_rowLine tpl _ vs1 hnd hlen1 hne hclean1,
      parseRowLine_rowLine tpl _ vs2 hnd hlen2 hne hclean2]

/-! ### C1: offset integrity of `_write_table`'s range-shift repair

A table whose recorded range is `[start_line, end_line)` occupies the file
lines `[start_line - 2, end_line)` (header, separator, then the data rows).
`rangesOK` is the reachable-state invariant: scanning the tables in dict
order with a running lower bound `lo` (the previous table's `end_line`,
initially `0`), each table's block begins at or after `lo`
(`lo + 2 ≤ start_line`), its range covers exactly its rows
(`end_line = start_line + rows.length`), and it ends inside the file.
This is precisely "row ranges disjoint and monotonically increasing". -/

/-- The sub-list `file[a:b]` of lines. -/
def sliceL (l : List Str) (a b : Nat) : List Str := (l.drop a).take (b - a)

/-- Disjoint, monotonically increasing, row-exact, in-file table ranges. -/
def rangesOK (fileLen : Nat) : Nat → Dict Table → Bool
  | _, [] => true
  | lo, kv :: rest =>
    decide (lo + 2 ≤ kv.2.start_line) &&
      decide (kv.2.end_line = kv.2.start_line + kv.2.rows.length) &&
      decide (kv.2.end_line ≤ fileLen) &&
      rangesOK fileLen kv.2.end_line rest

/-- Shift a recorded table range down the file by `d` lines. -/
def shiftTable (d : Nat) (kv : Str × Table) : Str × Table :=
  (kv.1, Table.mk kv.2.rows (kv.2.start_line + d) (kv.2.end_line + d))

/-- The running lower bound after scanning a table list. -/
def hiLine (lo : Nat) : Dict Table → Nat
  | [] => lo
  | kv :: rest => hiLine kv.2.end_line rest

theorem rangesOK_append (f lo : Nat) (xs ys : Dict Table) :
    rangesOK f lo (xs ++ ys) = (rangesOK f lo xs && rangesOK f (hiLine lo xs) ys) := by
  induction xs generalizing lo with
  | nil => simp [rangesOK, hiLine]
  | cons kv xs ih => simp [rangesOK, hiLine, ih, Bool.and_assoc]

theorem rangesOK_shift (f lo : Nat) (ts : Dict Table) (h : rangesOK f lo ts = true) :
    rangesOK (f + 1) (lo + 1) (ts.map (shiftTable 1)) = true := by
  induction ts generalizing lo with
  | nil => rfl
  | cons kv rest ih =>
    simp only [rangesOK, Bool.and_eq_true, decide_eq_true_eq] at h
    simp only [List.map_cons, rangesOK, shiftTable, Bool.and_eq_true, decide_eq_true_eq,
      List.length_map]
    obtain ⟨⟨⟨h1, h2⟩, h3⟩, h4⟩ := h
    refine ⟨⟨⟨?_, ?_⟩, ?_⟩, ih _ h4⟩ <;> omega

/-- Every table in a well-formed chain starts at or after the lower bound. -/
theorem rangesOK_start_ge (f lo : Nat) (ts : Dict Table) (h : rangesOK f lo ts = true) :
    ∀ kv ∈ ts, lo + 2 ≤ kv.2.start_line := by
  induction ts generalizing lo with
  | nil => intro kv hkv; cases hkv
  | cons kv0 rest ih =>
    simp only [rangesOK, Bool.and_eq_true, decide_eq_true_eq] at h
    obtain ⟨⟨⟨h1, h2⟩, h3⟩, h4⟩ := h
    intro kv hkv
    rcases List.mem_cons.mp hkv with rfl | hmem
    · exact h1
    · have := ih _ h4 kv hmem
      omega

theorem dictFind_skip {α : Type} (pre rest : Dict α) (k : Str)
    (h : ∀ kv ∈ pre, ¬kv.1 = k) :
    dictFind (pre ++ rest) k = dictFind rest k := by
  induction pre with
  | nil => rfl
  | cons kv pre ih =>
    rw [List.cons_append, dictFind_cons, if_neg (h kv (List.mem_cons_self kv pre))]
    exact ih (fun kv' h' => h kv' (List.mem_cons_of_mem kv h'))

theorem renderTable_length (tpl : IndexTemplate) (rows : List (Dict Str)) :
    (renderTable tpl rows).length = rows.length + 2 := by
  simp [renderTable]

theorem keys_write_table (tpl : IndexTemplate) (st : IndexState) (n : Str) :
    (write_table tpl st n).tables.map Prod.fst = st.tables.map Prod.fst := by
  unfold write_table
  simp only [List.map_map]
  apply List.map_congr_left
  intro kv _
  simp only [Function.comp_apply]
  by_cases h1 : kv.1 = n
  · simp [h1]
  · by_cases h2 : (getTable st.tables n).start_line < kv.2.start_line <;> simp [h1, h2]

/-- `_write_table` on the first table after appending one row: the rendered
block replaces lines `[start - 2, end)`, the table's new end is `end + 1`,
and every later table's recorded range is shifted by the row-count delta 1. -/
theorem write_table_first_insert (tpl : IndexTemplate) (file : List Str)
    (k : Str) (rows : List (Dict Str)) (s e : Nat) (rest : Dict Table)
    (hrest : ∀ kv ∈ rest, ¬kv.1 = k)
    (hgt : ∀ kv ∈ rest, s < kv.2.start_line)
    (he : s + rows.length = e + 1) :
    write_table tpl (IndexState.mk file ((k, Table.mk rows s e) :: rest)) k
      = IndexState.mk
          (file.take (s - 2) ++ renderTable tpl (rows.map linkify) ++ file.drop e)
          ((k, Table.mk (rows.map linkify) s (e + 1)) :: rest.map (shiftTable 1)) := by
  have hget : getTable ((k, Table.mk rows s e) :: rest) k = Table.mk rows s e := by
    simp [getTable, dictFind_cons]
  unfold write_table
  rw [hget]
  simp only [List.map_cons, List.length_map, IndexState.mk.injEq, List.cons.injEq, true_and]
  refine ⟨?_, ?_⟩
  · simp [he]
  · apply List.map_congr_left
    intro kv hkv
    have h1 : ¬kv.1 = k := hrest kv hkv
    have h2 : s < kv.2.start_line := hgt kv hkv
    simp only [h1, if_false, h2, if_true, shiftTable, Prod.mk.injEq, Table.mk.injEq,
      eq_self_iff_true, true_and, and_true]
    constructor <;> omega

/-- `_write_table` on a table whose recorded range is already row-exact:
the rendered block replaces exactly the table's own lines, the delta is `0`,
and every other table's recorded range is untouched. -/
theorem write_table_zero_delta (tpl : IndexTemplate) (file : List Str)
    (pre post : Dict Table) (k : Str) (t : Table)
    (hpre : ∀ kv ∈ pre, ¬kv.1 = k) (hpost : ∀ kv ∈ post, ¬kv.1 = k)
    (he : t.end_line = t.start_line + t.rows.length) :
    write_table tpl (IndexState.mk file (pre ++ (k, t) :: post)) k
      = IndexState.mk
          (file.take (t.start_line - 2) ++ renderTable tpl (t.rows.map linkify)
            ++ file.drop t.end_line)
          (pre ++ (k, Table.mk (t.rows.map linkify) t.start_line t.end_line) :: post) := by
  have hget : getTable (pre ++ (k, t) :: post) k = t := by
    unfold getTable
    rw [dictFind_skip pre _ k hpre, dictFind_cons]
    simp
  unfold write_table
  rw [hget]
  simp only [List.map_append, List.map_cons, List.length_map, IndexState.mk.injEq]
  have hid : ∀ kv : Str × Table, ¬kv.1 = k →
      (if kv.1 = k then
        (kv.1, Table.mk (t.rows.map linkify) t.start_line (t.start_line + t.rows.length))
      else if t.start_line < kv.2.start_line then
        (kv.1, Table.mk kv.2.rows
          (((kv.2.start_line : Int)
            + ((t.start_line + t.rows.length : Nat) - (t.end_line : Int))).toNat)
          (((kv.2.end_line : Int)
            + ((t.start_line + t.rows.length : Nat) - (t.end_line : Int))).toNat))
      else kv) = kv := by
    intro kv hk
    rcases kv with ⟨k', ⟨rws, a, b⟩⟩
    simp only [hk, if_false]
    by_cases h2 : t.start_line < a
    · simp only [h2, if_true, Prod.mk.injEq, Table.mk.injEq,
        eq_self_iff_true, true_and, and_true]
      constructor <;> omega
    · simp [h2]
  refine ⟨trivial, ?_⟩
  rw [List.map_congr_left (fun kv hkv => hid kv (hpre kv hkv)),
      List.map_congr_left (fun kv hkv => hid kv (hpost kv hkv))]
  simp [he]

/-- `_write_table` on a well-formed state preserves the file's length and
the range invariant (its delta is `0` there). -/
theorem write_table_wf (tpl : IndexTemplate) (s : IndexState) (k : Str)
    (hk : k ∈ s.tables.map Prod.fst) (hnd : (s.tables.map Prod.fst).Nodup)
    (hwf : rangesOK s.file.length 0 s.tables = true) :
    (write_table tpl s k).file.length = s.file.length ∧
      rangesOK (write_table tpl s k).file.length 0 (write_table tpl s k).tables = true := by
  rcases s with ⟨file, tables⟩
  obtain ⟨kv, hkv, hfst⟩ := List.mem_map.mp hk
  obtain ⟨pre, post, rfl⟩ := List.append_of_mem hkv
  rcases kv with ⟨k', t⟩
  obtain rfl := hfst.symm
  simp only [List.map_append, List.map_cons] at hnd
  have hnd' := List.nodup_middle.mp hnd
  have hknot : k ∉ pre.map Prod.fst ++ post.map Prod.fst := (List.nodup_cons.mp hnd').1
  have hpre : ∀ kv ∈ pre, ¬kv.1 = k := by
    intro kv hkv1 hq
    exact hknot (List.mem_append.mpr (Or.inl (hq ▸ List.mem_map_of_mem Prod.fst hkv1)))
  have hpost : ∀ kv ∈ post, ¬kv.1 = k := by
    intro kv hkv1 hq
    exact hknot (List.mem_append.mpr (Or.inr (hq ▸ List.mem_map_of_mem Prod.fst hkv1)))
  have hwf' := hwf
  rw [rangesOK_append] at hwf'
  simp only [Bool.and_eq_true] at hwf'
  obtain ⟨hwfpre, hwfmid⟩ := hwf'
  simp only [rangesOK, Bool.and_eq_true, decide_eq_true_eq] at hwfmid
  obtain ⟨⟨⟨hlo, hexact⟩, hle⟩, hpostchain⟩ := hwfmid
  have hchain0 : 0 + 2 ≤ hiLine 0 pre + 2 := by omega
  rw [write_table_zero_delta tpl file pre post k t hpre hpost hexact]
  have hstart2 : 2 ≤ t.start_line := by omega
  have hstartle : t.start_line - 2 ≤ file.length := by omega
  have hlen : (file.take (t.start_line - 2) ++ renderTable tpl (t.rows.map linkify)
      ++ file.drop t.end_line).length = file.length := by
    simp [renderTable_length]
    omega
  refine ⟨hlen, ?_⟩
  rw [hlen, rangesOK_append]
  simp only [Bool.and_eq_true]
  refine ⟨hwfpre, ?_⟩
  simp only [rangesOK, Bool.and_eq_true, decide_eq_true_eq, List.length_map]
  exact ⟨⟨⟨hlo, hexact⟩, hle⟩, hpostchain⟩

/-- Folding `_write_table` over present table names preserves the key list
and the range invariant. -/
theorem foldl_write_wf (tpl : IndexTemplate) (ks : List Str) (s₀ : IndexState)
    (hks : ∀ k ∈ ks, k ∈ s₀.tables.map Prod.fst)
    (hnd : (s₀.tables.map Prod.fst).Nodup)
    (hwf : rangesOK s₀.file.length 0 s₀.tables = true) :
    (ks.foldl (fun s n => write_table tpl s n) s₀).tables.map Prod.fst
        = s₀.tables.map Prod.fst ∧
      rangesOK (ks.foldl (fun s n => write_table tpl s n) s₀).file.length 0
        (ks.foldl (fun s n => write_table tpl s n) s₀).tables = true := by
  induction ks generalizing s₀ with
  | nil => exact ⟨rfl, hwf⟩
  | cons k ks ih =>
    have hk : k ∈ s₀.tables.map Prod.fst := hks k (List.mem_cons_self k ks)
    have h1 := write_table_wf tpl s₀ k hk hnd hwf
    have hkeys := keys_write_table tpl s₀ k
    have h2 := ih (write_table tpl s₀ k)
      (fun k' hk' => by rw [hkeys]; exact hks k' (List.mem_cons_of_mem k hk'))
      (by rw [hkeys]; exact hnd) h1.2
    exact ⟨h2.1.trans hkeys, h2.2⟩

/-- `format` (which calls `_write_table` on every table in dict order)
preserves the range invariant: ranges stay disjoint, monotonically
increasing, row-exact, and in-file. -/
theorem format_wf (tpl : IndexTemplate) (st : IndexState)
    (hnd : (st.tables.map Prod.fst).Nodup)
    (hwf : rangesOK st.file.length 0 st.tables = true) :
    rangesOK (format tpl st).file.length 0 (format tpl st).tables = true := by
  have h := foldl_write_wf tpl (st.tables.map Prod.fst) st (fun k hk => hk) hnd hwf
  exact h.2

/-- C1: offset integrity.  For any Index in the reachable-state invariant
(disjoint, monotonically increasing, row-exact, in-file ranges) with at
least two tables, `insert_row` into the first table shifts the recorded
range of every later table by exactly the row-count delta `1`, the shifted
range of the second table still addresses exactly the second table's
original file lines (its block, and the whole tail of the file, are
preserved verbatim at the shifted position), and a subsequent `update_row`
on the second table splices its re-rendered rows over exactly that shifted
block, leaving every other table's range untouched; the invariant is
preserved by the insert and the update, and by any `format` call. -/
theorem claim1_offset_integrity (tpl : IndexTemplate) (st : IndexState)
    (n₁ n₂ : Str) (t₁ t₂ : Table) (rest : Dict Table)
    (values newvals : Dict Str) (idx : Nat)
    (htab : st.tables = (n₁, t₁) :: (n₂, t₂) :: rest)
    (hnd : (st.tables.map Prod.fst).Nodup)
    (hwf : rangesOK st.file.length 0 st.tables = true)
    (hn₂ : ¬n₂ = [])
    (hres : find_best_matching_table (st.tables.map Prod.fst) n₂ = some n₂)
    (hidx : idx < t₂.rows.length) :
    (∃ st1 st2 : IndexState,
      insert_row tpl st values none = some (true, st1) ∧
      st1.tables
        = (n₁, Table.mk ((t₁.rows ++ [values]).map linkify) t₁.start_line (t₁.end_line + 1))
          :: (n₂, Table.mk t₂.rows (t₂.start_line + 1) (t₂.end_line + 1))
          :: rest.map (shiftTable 1) ∧
      sliceL st1.file (t₂.start_line + 1 - 2) (t₂.end_line + 1)
        = sliceL st.file (t₂.start_line - 2) t₂.end_line ∧
      st1.file.drop (t₂.end_line + 1) = st.file.drop t₂.end_line ∧
      rangesOK st1.file.length 0 st1.tables = true ∧
      update_row tpl st1 (idx : Int) newvals (some n₂) = some (true, st2) ∧
      st2.file = st1.file.take (t₂.start_line + 1 - 2)
          ++ renderTable tpl ((t₂.rows.set idx newvals).map linkify)
          ++ st1.file.drop (t₂.end_line + 1) ∧
      st2.tables
        = (n₁, Table.mk ((t₁.rows ++ [values]).map linkify) t₁.start_line (t₁.end_line + 1))
          :: (n₂, Table.mk ((t₂.rows.set idx newvals).map linkify)
                (t₂.start_line + 1) (t₂.end_line + 1))
          :: rest.map (shiftTable 1) ∧
      rangesOK st2.file.length 0 st2.tables = true) ∧
    rangesOK (format tpl st).file.length 0 (format tpl st).tables = true := by
  rcases st with ⟨file, tables⟩
  replace htab : tables = (n₁, t₁) :: (n₂, t₂) :: rest := htab
  subst htab
  replace hwf : rangesOK file.length 0 ((n₁, t₁) :: (n₂, t₂) :: rest) = true := hwf
  replace hnd : (((n₁, t₁) :: (n₂, t₂) :: rest).map Prod.fst).Nodup := hnd
  replace hres : find_best_matching_table
      (((n₁, t₁) :: (n₂, t₂) :: rest).map Prod.fst) n₂ = some n₂ := hres
  have hwf0 := hwf
  have hnd0 := hnd
  have hnd' : (n₁ :: n₂ :: rest.map Prod.fst).Nodup := hnd
  obtain ⟨hn₁nin, hnd2⟩ := List.nodup_cons.mp hnd'
  obtain ⟨hn₂nin, hnd3⟩ := List.nodup_cons.mp hnd2
  have hn₁₂ : ¬n₁ = n₂ := fun h => hn₁nin (h ▸ List.mem_cons_self _ _)
  have hn₂₁ : ¬n₂ = n₁ := fun h => hn₁₂ h.symm
  have hrest₁ : ∀ kv ∈ rest, ¬kv.1 = n₁ := fun kv hkv hq =>
    hn₁nin (List.mem_cons_of_mem _ (hq ▸ List.mem_map_of_mem Prod.fst hkv))
  have hrest₂ : ∀ kv ∈ rest, ¬kv.1 = n₂ := fun kv hkv hq =>
    hn₂nin (hq ▸ List.mem_map_of_mem Prod.fst hkv)
  simp only [rangesOK, Bool.and_eq_true, decide_eq_true_eq] at hwf
  obtain ⟨⟨⟨hs₁, he₁⟩, hle₁⟩, ⟨⟨⟨hs₂, he₂⟩, hle₂⟩, hchain⟩⟩ := hwf
  have hstarts := rangesOK_start_ge file.length t₂.end_line rest hchain
  have hgtall : ∀ kv ∈ (n₂, t₂) :: rest, t₁.start_line < kv.2.start_line := by
    intro kv hkv
    rcases List.mem_cons.mp hkv with rfl | hmem
    · show t₁.start_line < t₂.start_line
      omega
    · have := hstarts kv hmem
      omega
  have hrestall : ∀ kv ∈ (n₂, t₂) :: rest, ¬kv.1 = n₁ := by
    intro kv hkv
    rcases List.mem_cons.mp hkv with rfl | hmem
    · show ¬n₂ = n₁
      exact hn₂₁
    · exact hrest₁ kv hmem
  have hget1 : getTable ((n₁, t₁) :: (n₂, t₂) :: rest) n₁ = t₁ := by
    simp [getTable, dictFind_cons]
  have hins : insert_row tpl ⟨file, (n₁, t₁) :: (n₂, t₂) :: rest⟩ values none
      = some (true, write_table tpl
          ⟨file, (n₁, Table.mk (t₁.rows ++ [values]) t₁.start_line t₁.end_line)
            :: (n₂, t₂) :: rest⟩ n₁) := by
    have hres0 : resolveTableName ⟨file, (n₁, t₁) :: (n₂, t₂) :: rest⟩ none
        = some (some n₁) := by
      simp [resolveTableName, firstKey]
    unfold insert_row
    rw [hres0]
    simp only [hget1, List.map_cons]
    rw [List.map_congr_left (fun kv hkv => if_neg (hrest₁ kv hkv))]
    simp [hn₂₁]
  rw [write_table_first_insert tpl file n₁ (t₁.rows ++ [values]) t₁.start_line t₁.end_line
    ((n₂, t₂) :: rest) hrestall hgtall (by simp; omega)] at hins
  rw [show ((n₂, t₂) :: rest).map (shiftTable 1)
      = (n₂, Table.mk t₂.rows (t₂.start_line + 1) (t₂.end_line + 1))
        :: rest.map (shiftTable 1) from rfl] at hins
  have hAB : (file.take (t₁.start_line - 2)
      ++ renderTable tpl ((t₁.rows ++ [values]).map linkify)).length
      = t₁.end_line + 1 := by
    simp [renderTable_length]
    omega
  have hdropmid : (file.take (t₁.start_line - 2)
        ++ renderTable tpl ((t₁.rows ++ [values]).map linkify)
        ++ file.drop t₁.end_line).drop (t₂.start_line + 1 - 2)
      = file.drop (t₂.start_line - 2) := by
    rw [show t₂.start_line + 1 - 2
        = (file.take (t₁.start_line - 2)
            ++ renderTable tpl ((t₁.rows ++ [values]).map linkify)).length
          + (t₂.start_line - 2 - t₁.end_line) from by rw [hAB]; omega]
    rw [List.drop_append, List.drop_drop]
    congr 1
    omega
  have hdroptail : (file.take (t₁.start_line - 2)
        ++ renderTable tpl ((t₁.rows ++ [values]).map linkify)
        ++ file.drop t₁.end_line).drop (t₂.end_line + 1)
      = file.drop t₂.end_line := by
    rw [show t₂.end_line + 1
        = (file.take (t₁.start_line - 2)
            ++ renderTable tpl ((t₁.rows ++ [values]).map linkify)).length
          + (t₂.end_line - t₁.end_line) from by rw [hAB]; omega]
    rw [List.drop_append, List.drop_drop]
    congr 1
    omega
  have hlen1 : (file.take (t₁.start_line - 2)
        ++ renderTable tpl ((t₁.rows ++ [values]).map linkify)
        ++ file.drop t₁.end_line).length = file.length + 1 := by
    simp [renderTable_length]
    omega
  have hshiftrest := rangesOK_shift file.length t₂.end_line rest hchain
  have hwf1 : rangesOK (file.length + 1) 0
      ((n₁, Table.mk ((t₁.rows ++ [values]).map linkify) t₁.start_line (t₁.end_line + 1))
        :: (n₂, Table.mk t₂.rows (t₂.start_line + 1) (t₂.end_line + 1))
        :: rest.map (shiftTable 1)) = true := by
    simp only [rangesOK, Bool.and_eq_true, decide_eq_true_eq, List.length_map,
      List.length_append]
    refine ⟨⟨⟨by omega, by simp; omega⟩, by omega⟩,
      ⟨⟨⟨by omega, by omega⟩, by omega⟩, hshiftrest⟩⟩
  have hkeysrest : (rest.map (shiftTable 1)).map Prod.fst = rest.map Prod.fst := by
    rw [List.map_map]
    exact List.map_congr_left (fun kv _ => rfl)
  have hpostkeys : ∀ kv ∈ rest.map (shiftTable 1), ¬kv.1 = n₂ := by
    intro kv hkv
    obtain ⟨kv0, hkv0, rfl⟩ := List.mem_map.mp hkv
    exact hrest₂ kv0 hkv0
  have hget2 : getTable
      ((n₁, Table.mk ((t₁.rows ++ [values]).map linkify) t₁.start_line (t₁.end_line + 1))
        :: (n₂, Table.mk t₂.rows (t₂.start_line + 1) (t₂.end_line + 1))
        :: rest.map (shiftTable 1)) n₂
      = Table.mk t₂.rows (t₂.start_line + 1) (t₂.end_line + 1) := by
    simp [getTable, dictFind_cons, hn₁₂]
  have hguard : ¬((idx : Int) < 0 ∨ (t₂.rows.length : Int) ≤ (idx : Int)) := by
    omega
  have hupd : update_row tpl
      ⟨file.take (t₁.start_line - 2)
        ++ renderTable tpl ((t₁.rows ++ [values]).map linkify)
        ++ file.drop t₁.end_line,
       (n₁, Table.mk ((t₁.rows ++ [values]).map linkify) t₁.start_line (t₁.end_line + 1))
        :: (n₂, Table.mk t₂.rows (t₂.start_line + 1) (t₂.end_line + 1))
        :: rest.map (shiftTable 1)⟩ (idx : Int) newvals (some n₂)
      = some (true, write_table tpl
          ⟨file.take (t₁.start_line - 2)
            ++ renderTable tpl ((t₁.rows ++ [values]).map linkify)
            ++ file.drop t₁.end_line,
           (n₁, Table.mk ((t₁.rows ++ [values]).map linkify) t₁.start_line (t₁.end_line + 1))
            :: (n₂, Table.mk (t₂.rows.set idx newvals) (t₂.start_line + 1) (t₂.end_line + 1))
            :: rest.map (shiftTable 1)⟩ n₂) := by
    have hres1 : resolveTableName
        ⟨file.take (t₁.start_line - 2)
          ++ renderTable tpl ((t₁.rows ++ [values]).map linkify)
          ++ file.drop t₁.end_line,
         (n₁, Table.mk ((t₁.rows ++ [values]).map linkify) t₁.start_line (t₁.end_line + 1))
          :: (n₂, Table.mk t₂.rows (t₂.start_line + 1) (t₂.end_line + 1))
          :: rest.map (shiftTable 1)⟩ (some n₂) = some (some n₂) := by
      simp only [resolveTableName, if_neg hn₂]
      simp only [List.map_cons, hkeysrest]
      simp only [List.map_cons] at hres
      rw [hres]
    unfold update_row
    rw [hres1]
    simp only [hget2]
    rw [if_neg hguard]
    simp only [Int.toNat_natCast, List.map_cons]
    rw [List.map_congr_left (fun kv hkv => if_neg (hpostkeys kv hkv))]
    simp [hn₁₂, Function.comp_def]
  rw [show ((n₁, Table.mk ((t₁.rows ++ [values]).map linkify) t₁.start_line (t₁.end_line + 1))
      :: (n₂, Table.mk (t₂.rows.set idx newvals) (t₂.start_line + 1) (t₂.end_line + 1))
      :: rest.map (shiftTable 1))
    = [(n₁, Table.mk ((t₁.rows ++ [values]).map linkify) t₁.start_line (t₁.end_line + 1))]
      ++ (n₂, Table.mk (t₂.rows.set idx newvals) (t₂.start_line + 1) (t₂.end_line + 1))
      :: rest.map (shiftTable 1) from rfl] at hupd
  rw [write_table_zero_delta tpl
    (file.take (t₁.start_line - 2)
      ++ renderTable tpl ((t₁.rows ++ [values]).map linkify)
      ++ file.drop t₁.end_line)
    [(n₁, Table.mk ((t₁.rows ++ [values]).map linkify) t₁.start_line (t₁.end_line + 1))]
    (rest.map (shiftTable 1)) n₂
    (Table.mk (t₂.rows.set idx newvals) (t₂.start_line + 1) (t₂.end_line + 1))
    (by
      intro kv hkv
      rw [List.mem_singleton] at hkv
      subst hkv
      exact hn₁₂)
    hpostkeys
    (by simp [List.length_set]; omega)] at hupd
  have hlen2 : ((file.take (t₁.start_line - 2)
        ++ renderTable tpl ((t₁.rows ++ [values]).map linkify)
        ++ file.drop t₁.end_line).take (t₂.start_line + 1 - 2)
      ++ renderTable tpl ((t₂.rows.set idx newvals).map linkify)
      ++ (file.take (t₁.start_line - 2)
        ++ renderTable tpl ((t₁.rows ++ [values]).map linkify)
        ++ file.drop t₁.end_line).drop (t₂.end_line + 1)).length
      = file.length + 1 := by
    simp [renderTable_length, List.length_set]
    omega
  have hwf2 : rangesOK (file.length + 1) 0
      ((n₁, Table.mk ((t₁.rows ++ [values]).map linkify) t₁.start_line (t₁.end_line + 1))
        :: (n₂, Table.mk ((t₂.rows.set idx newvals).map linkify)
              (t₂.start_line + 1) (t₂.end_line + 1))
        :: rest.map (shiftTable 1)) = true := by
    simp only [rangesOK, Bool.and_eq_true, decide_eq_true_eq, List.length_map,
      List.length_append, List.length_set]
    refine ⟨⟨⟨by omega, by simp; omega⟩, by omega⟩,
      ⟨⟨⟨by omega, by omega⟩, by omega⟩, hshiftrest⟩⟩
  refine ⟨⟨⟨file.take (t₁.start_line - 2)
      ++ renderTable tpl ((t₁.rows ++ [values]).map linkify)
      ++ file.drop t₁.end_line,
     (n₁, Table.mk ((t₁.rows ++ [values]).map linkify) t₁.start_line (t₁.end_line + 1))
      :: (n₂, Table.mk t₂.rows (t₂.start_line + 1) (t₂.end_line + 1))
      :: rest.map (shiftTable 1)⟩,
    ⟨(file.take (t₁.start_line - 2)
        ++ renderTable tpl ((t₁.rows ++ [values]).map linkify)
        ++ file.drop t₁.end_line).take (t₂.start_line + 1 - 2)
      ++ renderTable tpl ((t₂.rows.set idx newvals).map linkify)
      ++ (file.take (t₁.start_line - 2)
        ++ renderTable tpl ((t₁.rows ++ [values]).map linkify)
        ++ file.drop t₁.end_line).drop (t₂.end_line + 1),
     (n₁, Table.mk ((t₁.rows ++ [values]).map linkify) t₁.start_line (t₁.end_line + 1))
      :: (n₂, Table.mk ((t₂.rows.set idx newvals).map linkify)
            (t₂.start_line + 1) (t₂.end_line + 1))
      :: rest.map (shiftTable 1)⟩,
    hins, rfl, ?_, hdroptail, ?_, hupd, rfl, rfl, ?_⟩,
    format_wf tpl ⟨file, (n₁, t₁) :: (n₂, t₂) :: rest⟩ hnd0 hwf0⟩
  · show sliceL _ (t₂.start_line + 1 - 2) (t₂.end_line + 1)
      = sliceL file (t₂.start_line - 2) t₂.end_line
    unfold sliceL
    rw [hdropmid]
    rw [show t₂.end_line + 1 - (t₂.start_line + 1 - 2)
        = t₂.end_line - (t₂.start_line - 2) from by omega]
  · show rangesOK _ 0 _ = true
    rw [hlen1]
    exact hwf1
  · show rangesOK _ 0 _ = true
    rw [hlen2]
    exact hwf2

/-- A concrete two-table index: `Index` at lines `[1, 4)` and `Other` at
lines `[4, 7)` of a 7-line file (only the recorded ranges matter here). -/
def c1tab1 : Table := Table.mk [[(str "title", str "a")]] 3 4

def c1tab2 : Table := Table.mk [[(str "title", str "b")]] 6 7

def c1state : IndexState :=
  ⟨List.replicate 7 (str "x"), [(str "Index", c1tab1), (str "Other", c1tab2)]⟩

theorem claim1_offset_integrity_witness :
    (∃ st1 st2 : IndexState,
      insert_row tpl1 c1state [(str "title", str "c")] none = some (true, st1) ∧
      st1.tables
        = (str "Index", Table.mk ((c1tab1.rows ++ [[(str "title", str "c")]]).map linkify)
              c1tab1.start_line (c1tab1.end_line + 1))
          :: (str "Other", Table.mk c1tab2.rows (c1tab2.start_line + 1) (c1tab2.end_line + 1))
          :: List.map (shiftTable 1) [] ∧
      sliceL st1.file (c1tab2.start_line + 1 - 2) (c1tab2.end_line + 1)
        = sliceL c1state.file (c1tab2.start_line - 2) c1tab2.end_line ∧
      st1.file.drop (c1tab2.end_line + 1) = c1state.file.drop c1tab2.end_line ∧
      rangesOK st1.file.length 0 st1.tables = true ∧
      update_row tpl1 st1 ((0 : Nat) : Int) [(str "title", str "d")] (some (str "Other"))
        = some (true, st2) ∧
      st2.file = st1.file.take (c1tab2.start_line + 1 - 2)
          ++ renderTable tpl1 ((c1tab2.rows.set 0 [(str "title", str "d")]).map linkify)
          ++ st1.file.drop (c1tab2.end_line + 1) ∧
      st2.tables
        = (str "Index", Table.mk ((c1tab1.rows ++ [[(str "title", str "c")]]).map linkify)
              c1tab1.start_line (c1tab1.end_line + 1))
          :: (str "Other", Table.mk ((c1tab2.rows.set 0 [(str "title", str "d")]).map linkify)
                (c1tab2.start_line + 1) (c1tab2.end_line + 1))
          :: List.map (shiftTable 1) [] ∧
      rangesOK st2.file.length 0 st2.tables = true) ∧
    rangesOK (format tpl1 c1state).file.length 0 (format tpl1 c1state).tables = true :=
  claim1_offset_integrity tpl1 c1state (str "Index") (str "Other") c1tab1 c1tab2 []
    [(str "title", str "c")] [(str "title", str "d")] 0
    rfl (by decide) (by decide) (by decide) (by decide) (by decide)

theorem claim6_insert_two_then_load_witness :
    ∃ st1 st2 : IndexState,
      insert_row tpl1 (create tpl1) (tpl1.columns.zip [ str "a"]) none = some (true, st1) ∧
      insert_row tpl1 st1 (tpl1.columns.zip [ str "b"]) none = some (true, st2) ∧
      loadTables tpl1 st2.file
        = [(str "Index",
            Table.mk [tpl1.columns.zip [ str "a"], tpl1.columns.zip [ str "b"]] 3 5)] :=
  claim6_insert_two_then_load tpl1 [ str "a"] [ str "b"]
    (by decide) (by decide) (by decide) (by decide) (by decide) (by decide)
    (by decide) (by decide) (by decide) (by decide) (by decide) (by decide)

end Bibim
